import Mathlib

/-!
Shallow embedding of the uci_rs configuration library
(src/src/storage/uci/...) and proofs about its specification claims.

Strings are modelled as `List Char` (`Str`).  The Rust code indexes
strings by UTF-8 byte position; every explicit position increment in the
source is over ASCII text (keywords, quotes, brackets), and otherwise the
position always advances by the width of the character just read, so a
character-indexed model is observationally equivalent; `width` is 1 for
any successfully read character.

Fallible Rust code returning `Result<_, Error>` is modelled with `Res`;
a Rust `panic!`/`unwrap` failure is modelled by the distinguished error
`RErr.panic`.
-/

namespace UciRs

abbrev Str := List Char

/-- `crate::utils::Error` together with a marker for a Rust panic
(`unwrap` on `None`/`Err`, or an out-of-bounds index). -/
inductive RErr where
  | err (message : Str)
  | panic
  deriving DecidableEq, Repr

/-- `crate::utils::Result`, with panics made explicit. -/
inductive Res (α : Type) where
  | ok (val : α)
  | error (e : RErr)
  deriving DecidableEq, Repr

/-! ## Tree data model: `UciOption`, `UciSection`, `UciConfig`
(src/src/storage/uci/tree/uci_option/mod.rs, uci_section.rs,
uci_config/mod.rs) -/

/-- `UciOptionType` from uci_option/mod.rs. -/
inductive UciOptionType where
  | TypeOption
  | TypeList
  deriving DecidableEq, Repr

/-- `UciOption` from uci_option/mod.rs. -/
structure UciOption where
  name : Str
  values : List Str
  opt_type : UciOptionType
  deriving DecidableEq, Repr

/-- `UciOption::new`. -/
def UciOption.new (name : Str) (opt_type : UciOptionType) (values : List Str) :
    UciOption :=
  { name := name, opt_type := opt_type, values := values }

/-- `UciOption::set_values`. -/
def UciOption.set_values (o : UciOption) (values : List Str) : UciOption :=
  { o with values := values }

/-- `UciOption::set_type`. -/
def UciOption.set_type (o : UciOption) (typ : UciOptionType) : UciOption :=
  { o with opt_type := typ }

/-- `UciOption::merge_values`.  For a list option the `HashSet` is built
from the values present before the loop starts, so each incoming value is
appended iff it is not among the original stored values. -/
def UciOption.merge_values (o : UciOption) (values : List Str) : UciOption :=
  match o.opt_type with
  | .TypeOption => o.set_values values
  | .TypeList =>
      { o with values := o.values ++ values.filter (fun v => ¬ o.values.contains v) }

/-- `UciSection` from uci_section.rs. -/
structure UciSection where
  name : Str
  sec_type : Str
  options : List UciOption
  deriving DecidableEq, Repr

/-- `UciSection::new`. -/
def UciSection.new (sec_type : Str) (name : Str) : UciSection :=
  { name := name, sec_type := sec_type, options := [] }

/-- `UciSection::add`. -/
def UciSection.add (s : UciSection) (o : UciOption) : UciSection :=
  { s with options := s.options ++ [o] }

/-- The loop body of `UciSection::merge`: walk the options, act on the
first one whose name matches, otherwise push the incoming option. -/
def mergeInto : List UciOption → UciOption → List UciOption
  | [], o => [o]
  | opt :: rest, o =>
      if opt.name = o.name ∧ opt.opt_type = o.opt_type then
        opt.merge_values o.values :: rest
      else if opt.name = o.name then
        ((opt.set_type o.opt_type).set_values o.values) :: rest
      else
        opt :: mergeInto rest o

/-- `UciSection::merge`. -/
def UciSection.merge (s : UciSection) (o : UciOption) : UciSection :=
  { s with options := mergeInto s.options o }

/-- The index scan of `UciSection::del`: remove the first option with the
given name, reporting whether one was removed. -/
def delFirst : List UciOption → Str → (List UciOption × Bool)
  | [], _ => ([], false)
  | o :: rest, name =>
      if o.name = name then (rest, true)
      else
        let r := delFirst rest name
        (o :: r.1, r.2)

/-- `UciSection::del`: returns the updated section and the removed flag. -/
def UciSection.del (s : UciSection) (name : Str) : UciSection × Bool :=
  let r := delFirst s.options name
  ({ s with options := r.1 }, r.2)

/-- `UciSection::get`. -/
def UciSection.get (s : UciSection) (name : Str) : Option UciOption :=
  s.options.find? (fun opt => opt.name = name)

/-- Apply `f` to the first option with the given name (the effect of a
mutation through `get_mut`). -/
def updateFirstOpt (name : Str) (f : UciOption → UciOption) :
    List UciOption → List UciOption
  | [] => []
  | o :: rest => if o.name = name then f o :: rest else o :: updateFirstOpt name f rest

/-- `UciSection::get_mut` followed by an in-place update `f` of the found
option (the only way `get_mut` is used by the sources). -/
def UciSection.updateFirst (s : UciSection) (name : Str)
    (f : UciOption → UciOption) : UciSection :=
  { s with options := updateFirstOpt name f s.options }

/-- `UciConfig` from uci_config/mod.rs. -/
structure UciConfig where
  name : Str
  pkg_name : Str
  sections : List UciSection
  modified : Bool
  deriving DecidableEq, Repr

/-- `UciConfig::new`. -/
def UciConfig.new (name : Str) : UciConfig :=
  { name := name, pkg_name := [], sections := [], modified := false }

/-- `UciConfig::_index`: the position of the first section equal to
`section` among the sections of the same type. -/
def UciConfig._index (cfg : UciConfig) (sec : UciSection) : Option Nat :=
  (cfg.sections.filter (fun s => s.sec_type = sec.sec_type)).findIdx?
    (fun s => s = sec)

/-- `UciConfig::_count`. -/
def UciConfig._count (cfg : UciConfig) (sec_type : Str) : Nat :=
  (cfg.sections.filter (fun s => s.sec_type = sec_type)).length

/-- `UciConfig::_get_named`(`_mut`): first section with the given name. -/
def UciConfig._get_named (cfg : UciConfig) (name : Str) : Option UciSection :=
  cfg.sections.find? (fun s => s.name = name)

/-- Decimal digits of a natural number, least significant last; models
Rust `format!` of an unsigned integer. -/
def decRepr (n : Nat) : Str :=
  if h : n < 10 then [Char.ofNat (48 + n)]
  else decRepr (n / 10) ++ [Char.ofNat (48 + n % 10)]
decreasing_by
  exact Nat.div_lt_self (Nat.lt_of_lt_of_le (by norm_num) (Nat.le_of_not_lt h)) (by norm_num)

/-- Decimal rendering of a signed integer; models Rust `format!`/`Display`
for `i32`. -/
def intRepr (i : Int) : Str :=
  if i < 0 then '-' :: decRepr i.natAbs else decRepr i.toNat

/-- Accumulating digit scan: `none` if any character is not an ASCII
digit.  Helper for the model of `str::parse::<i32>`. -/
def digitsValGo : Str → Nat → Option Nat
  | [], acc => some acc
  | c :: rest, acc =>
      if '0' ≤ c ∧ c ≤ '9' then digitsValGo rest (acc * 10 + (c.toNat - 48))
      else none

/-- Numeric value of a digit string. -/
def digitsVal (s : Str) : Option Nat :=
  digitsValGo s 0

/-- Digits-and-range part of `str::parse::<i32>`. -/
def parseDigitsI32 (neg : Bool) (digits : Str) : Res Int :=
  if digits = [] then .error (.err "invalid digit found in string".data)
  else
    match digitsVal digits with
    | none => .error (.err "invalid digit found in string".data)
    | some n =>
        if neg then
          if n ≤ 2 ^ 31 then .ok (-(n : Int))
          else .error (.err "number too small to fit in target type".data)
        else
          if n ≤ 2 ^ 31 - 1 then .ok (n : Int)
          else .error (.err "number too large to fit in target type".data)

/-- Model of Rust `str::parse::<i32>`: optional sign, decimal digits,
value within the `i32` range. -/
def parseI32 (s : Str) : Res Int :=
  match s with
  | [] => .error (.err "cannot parse integer from empty string".data)
  | c :: rest =>
      if c = '+' then parseDigitsI32 false rest
      else if c = '-' then parseDigitsI32 true rest
      else parseDigitsI32 false s

/-- The validation loop of `unmangle_section_name`: `i` is the current
index, `ket` the last index, `bra` the position of the `[` seen so far
(0 when none seen yet). -/
def unmangleScan (ket : Nat) : List Char → Nat → Nat → Res Nat
  | [], _, bra => .ok bra
  | c :: rest, i, bra =>
      if i ≠ 0 ∧ c = '@' then
        .error (.err "invalid syntax: multiple @ signs found".data)
      else if bra > 0 ∧ c = '[' then
        .error (.err "invalid syntax: multiple open brackets found".data)
      else if i ≠ ket ∧ c = ']' then
        .error (.err "invalid syntax: multiple closed brackets found".data)
      else
        unmangleScan ket rest (i + 1) (if c = '[' then i else bra)

/-- `unmangle_section_name` (uci_config/mod.rs): decode a positional
selector `@type[index]` into the type and the signed index. -/
def unmangle_section_name (section_name : Str) : Res (Str × Int) :=
  let len := section_name.length
  if len < 5 then
    .error (.err "implausible section selector: must be at least 5 characters long".data)
  else if section_name.head? ≠ some '@' then
    .error (.err "invalid syntax: section selector must start with @ sign".data)
  else
    match unmangleScan (len - 1) section_name 0 0 with
    | .error e => .error e
    | .ok bra =>
        if bra = 0 ∨ bra ≥ len - 1 then
          .error (.err "invalid syntax: section selector must have format \x27@type[index]\x27".data)
        else
          let sec_type := (section_name.drop 1).take (bra - 1)
          let digits := (section_name.drop (bra + 1)).take (len - 1 - (bra + 1))
          match parseI32 digits with
          | .ok num => .ok (sec_type, num)
          | .error e =>
              match e with
              | .err msg =>
                  .error (.err ("invalid syntax: index must be numeric: ".data ++ msg))
              | .panic => .error .panic

/-- Rust `usize as i32`: reduce modulo 2^32 into [-2^31, 2^31). -/
def i32ofNat (n : Nat) : Int :=
  let m : Int := (n : Int) % 2 ^ 32
  if m < 2 ^ 31 then m else m - 2 ^ 32

/-- `UciConfig::_get_unnamed`: resolve a positional selector.  The index
arithmetic is performed in `i32`; `count as i32 + sec_index` cannot
overflow `i32`, so plain integer addition is faithful. -/
def UciConfig._get_unnamed (cfg : UciConfig) (name : Str) :
    Res (Option UciSection) :=
  match unmangle_section_name name with
  | .error e => .error e
  | .ok (sec_type, sec_index) =>
      let count := cfg._count sec_type
      let index : Int := if sec_index ≥ 0 then sec_index else i32ofNat count + sec_index
      if index < 0 ∨ index ≥ i32ofNat count then
        .error (.err "invalid name: index out of bounds".data)
      else
        .ok ((cfg.sections.filter (fun s => s.sec_type = sec_type)).get? index.toNat)

/-- `UciConfig::get`: dispatch on a leading `@`. -/
def UciConfig.get (cfg : UciConfig) (name : Str) : Res (Option UciSection) :=
  match name with
  | '@' :: _ => cfg._get_unnamed name
  | _ => .ok (cfg._get_named name)

/-- `UciConfig::get_section_name`: the explicit name when non-empty, else
the positional form; `none` models the `unwrap` panic when `_index`
cannot find the section. -/
def UciConfig.get_section_name (cfg : UciConfig) (sec : UciSection) : Option Str :=
  if sec.name ≠ [] then some sec.name
  else (cfg._index sec).map (fun i => '@' :: sec.sec_type ++ '[' :: decRepr i ++ [']'])

/-- `UciConfig::add`. -/
def UciConfig.add (cfg : UciConfig) (sec : UciSection) : UciConfig :=
  { cfg with sections := cfg.sections ++ [sec] }

/-- Position in `sections` of the `k`-th section satisfying `p`
(document order), used to model `iter_mut().filter(..).nth(..)`. -/
def nthIdxWhere (p : UciSection → Bool) : List UciSection → Nat → Option Nat
  | [], _ => none
  | s :: rest, k =>
      if p s then
        if k = 0 then some 0 else (nthIdxWhere p rest (k - 1)).map (· + 1)
      else (nthIdxWhere p rest k).map (· + 1)

/-- `UciConfig::_get_unnamed_mut` resolved to an index into `sections`. -/
def UciConfig._get_unnamed_idx (cfg : UciConfig) (name : Str) : Res (Option Nat) :=
  match unmangle_section_name name with
  | .error e => .error e
  | .ok (sec_type, sec_index) =>
      let count := cfg._count sec_type
      let index : Int := if sec_index ≥ 0 then sec_index else i32ofNat count + sec_index
      if index < 0 ∨ index ≥ i32ofNat count then
        .error (.err "invalid name: index out of bounds".data)
      else
        .ok (nthIdxWhere (fun s => s.sec_type = sec_type) cfg.sections index.toNat)

/-- `UciConfig::get_mut` resolved to an index into `sections`. -/
def UciConfig.getMutIdx (cfg : UciConfig) (name : Str) : Res (Option Nat) :=
  match name with
  | '@' :: _ => cfg._get_unnamed_idx name
  | _ => .ok (cfg.sections.findIdx? (fun s => s.name = name))

/-- Replace the section at index `i`. -/
def UciConfig.setSectionAt (cfg : UciConfig) (i : Nat) (sec : UciSection) : UciConfig :=
  { cfg with sections := cfg.sections.set i sec }

/-- `UciConfig::merge`: merge a section into the section with the same
canonical name, else append it.  `none` models the panics: the
`get_section_name` `unwrap` inside the `any` closure, and the
`get_mut(..).unwrap().unwrap()`. -/
def UciConfig.mergeSec (cfg : UciConfig) (sec : UciSection) : Option UciConfig :=
  match cfg.sections with
  | [] => some (cfg.add sec)
  | _ :: _ =>
      match cfg.get_section_name sec with
      | none => none
      | some nm =>
          if cfg.sections.any (fun s => some nm = cfg.get_section_name s) then
            match cfg.getMutIdx nm with
            | .error _ => none
            | .ok none => none
            | .ok (some i) =>
                match cfg.sections.get? i with
                | none => none
                | some target =>
                    some (cfg.setSectionAt i
                      (sec.options.foldl (fun t o => t.merge o) target))
          else
            some (cfg.add sec)

/-- `UciConfig::del`: remove the first section whose canonical name is
`name` (silent no-op otherwise).  For sections stored in the config,
`get_section_name` never panics, modelled by comparison with `some`. -/
def UciConfig.delSec (cfg : UciConfig) (name : Str) : UciConfig :=
  match cfg.sections.findIdx? (fun s => cfg.get_section_name s = some name) with
  | some i => { cfg with sections := cfg.sections.eraseIdx i }
  | none => cfg

/-- `UciConfig::set_pkg_name`. -/
def UciConfig.set_pkg_name (cfg : UciConfig) (name : Str) : UciConfig :=
  { cfg with pkg_name := name }

/-- `UciConfig::write_in`: the text written to the temp file.  `none`
models the panic `opt.values[0]` on a scalar option with no values. -/
def writeOpt (o : UciOption) : Option Str :=
  match o.opt_type with
  | .TypeOption =>
      match o.values.head? with
      | none => none
      | some v => some ("\toption ".data ++ o.name ++ " \x27".data ++ v ++ "\x27\n".data)
  | .TypeList =>
      some (o.values.foldl
        (fun acc v => acc ++ "\tlist ".data ++ o.name ++ " \x27".data ++ v ++ "\x27\n".data) [])

def writeSec (sec : UciSection) : Option Str := do
  let header :=
    if sec.name = [] then "\nconfig ".data ++ sec.sec_type ++ "\n".data
    else "\nconfig ".data ++ sec.sec_type ++ " \x27".data ++ sec.name ++ "\x27\n".data
  let body ← sec.options.foldlM (fun acc o => (writeOpt o).map (acc ++ ·)) ([] : Str)
  pure (header ++ body)

def UciConfig.write_in (cfg : UciConfig) : Option Str := do
  let head :=
    if cfg.pkg_name = [] then ([] : Str)
    else "\npackage \x27".data ++ cfg.pkg_name ++ "\x27\n".data
  let body ← cfg.sections.foldlM (fun acc s => (writeSec s).map (acc ++ ·)) ([] : Str)
  pure (head ++ body ++ "\n".data)

/-! ## Store: `UciTree` (src/src/storage/uci/tree/mod.rs)

The store keeps a `HashMap<String, UciConfig>` behind a mutex; the map is
modelled as an association list (`assocInsert` matching `HashMap::insert`,
iteration in list order standing for the map's iteration order), the
single-threaded lock as a no-op, and the root directory is dropped (it
only prefixes file paths).  File I/O is abstracted: tree operations take
a `load : Str → Res UciConfig` argument standing for the body of
`_load_config` minus the insert (`File::open` + `read_to_string` +
`uci_parse`), and `commit` takes a `save : UciConfig → Res Unit`
argument standing for `_save_config` (temp file, chmod, fsync, rename).
-/

abbrev ConfigMap := List (Str × UciConfig)

def assocLookup (m : ConfigMap) (k : Str) : Option UciConfig :=
  (m.find? (fun p => p.1 = k)).map (·.2)

def assocContains (m : ConfigMap) (k : Str) : Bool :=
  (m.find? (fun p => p.1 = k)).isSome

def assocInsert : ConfigMap → Str → UciConfig → ConfigMap
  | [], k, v => [(k, v)]
  | p :: rest, k, v => if p.1 = k then (k, v) :: rest else p :: assocInsert rest k v

def assocRemove (m : ConfigMap) (k : Str) : ConfigMap :=
  match m with
  | [] => []
  | p :: rest => if p.1 = k then rest else p :: assocRemove rest k

/-- Update the config stored under `k` in place (models mutation through
`get_mut`). -/
def assocUpdate (m : ConfigMap) (k : Str) (f : UciConfig → UciConfig) : ConfigMap :=
  match m with
  | [] => []
  | p :: rest => if p.1 = k then (p.1, f p.2) :: rest else p :: assocUpdate rest k f

/-- `UciTree` (directory and lock omitted, see the section comment). -/
structure UciTree where
  configs : ConfigMap
  deriving DecidableEq, Repr

/-- `UciTree::_load_config`: read and parse the file, insert the result. -/
def UciTree._load_config (t : UciTree) (load : Str → Res UciConfig) (name : Str) :
    Res UciTree :=
  match load name with
  | .error e => .error e
  | .ok cfg => .ok { configs := assocInsert t.configs name cfg }

/-- `UciTree::load_config` (trait `Uci`). -/
def UciTree.load_config (t : UciTree) (load : Str → Res UciConfig) (name : Str) :
    Res UciTree :=
  if assocContains t.configs name then .error (.err (name ++ " already loaded".data))
  else t._load_config load name

/-- `UciTree::load_config_force`. -/
def UciTree.load_config_force (t : UciTree) (load : Str → Res UciConfig) (name : Str) :
    Res UciTree :=
  t._load_config load name

/-- `UciTree::_ensure_config_loaded(_mut)`: on a cache hit the tree is
unchanged, on a miss `load_config` (plain `load` semantics) runs.  An
error leaves the tree unchanged in the source, so only the result tree is
returned. -/
def UciTree.ensureLoaded (t : UciTree) (load : Str → Res UciConfig) (name : Str) :
    Res UciTree :=
  if assocContains t.configs name then .ok t
  else
    match t.load_config load name with
    | .error e => .error e
    | .ok t1 => .ok t1

/-- `UciTree::_lookup_option`. -/
def UciTree._lookup_option (t : UciTree) (config_name section_name option_name : Str) :
    Res (Option UciOption) :=
  match assocLookup t.configs config_name with
  | some config =>
      match config.get section_name with
      | .ok (some sec) => .ok (sec.get option_name)
      | .ok none => .ok none
      | .error e => .error e
  | none => .ok none

/-- `UciTree::_lookup_values`. -/
def UciTree._lookup_values (t : UciTree) (config_name section_name option_name : Str) :
    Res (List Str) :=
  match t._lookup_option config_name section_name option_name with
  | .ok (some opt) => .ok opt.values
  | .ok none =>
      .error (.err ("values of ".data ++ section_name ++ ".".data ++ option_name ++
        " not found".data))
  | .error e => .error e

/-- `UciTree::get_option_value` (`&self`: performs no loading; the source
calls `_lookup_values` twice with the same pure result). -/
def UciTree.get_option_value (t : UciTree) (config_name section_name option_name : Str) :
    Res (List Str) :=
  t._lookup_values config_name section_name option_name

/-- `UciTree::get_option_last_value`; `values.last().unwrap()` on an
empty vector is a panic. -/
def UciTree.get_option_last_value (t : UciTree)
    (config_name section_name option_name : Str) : Res (Option Str) :=
  match t.get_option_value config_name section_name option_name with
  | .ok values =>
      match values.getLast? with
      | some v => .ok (some v)
      | none => .error .panic
  | .error e => .error e

/-- `UciTree::get_option_bool_value`. -/
def UciTree.get_option_bool_value (t : UciTree)
    (config_name section_name option_name : Str) : Res Bool :=
  match t.get_option_last_value config_name section_name option_name with
  | .ok (some val) =>
      if val = "1".data then .ok true
      else if val = "on".data then .ok true
      else if val = "true".data then .ok true
      else if val = "yes".data then .ok true
      else if val = "enabled".data then .ok true
      else if val = "0".data then .ok false
      else if val = "false".data then .ok false
      else if val = "no".data then .ok false
      else if val = "disabled".data then .ok false
      else .ok false
  | .ok none => .ok false
  | .error e => .error e

/-- `UciTree::get_sections`: auto-loads on a cache miss; returns the
possibly grown tree together with the `Option` result. -/
def UciTree.get_sections (t : UciTree) (load : Str → Res UciConfig)
    (config_name section_type : Str) : UciTree × Option (List UciSection) :=
  match t.ensureLoaded load config_name with
  | .ok t1 =>
      match assocLookup t1.configs config_name with
      | some cfg =>
          (t1, some (cfg.sections.filter (fun s => s.sec_type = section_type)))
      | none => (t1, none)
  | .error _ => (t, none)

/-- `UciTree::_set_option_with_type`.  Note: the modified flag is not
touched. -/
def UciTree._set_option_with_type (t : UciTree) (load : Str → Res UciConfig)
    (config_name section_name option_name : Str) (opt_type : UciOptionType)
    (values : List Str) : Res UciTree :=
  match t.ensureLoaded load config_name with
  | .error e => .error e
  | .ok t1 =>
      match assocLookup t1.configs config_name with
      | none => .error .panic
      | some cfg =>
          match cfg.getMutIdx section_name with
          | .error e => .error e
          | .ok none =>
              .error (.err ("section \x27".data ++ section_name ++ "\x27 not found".data))
          | .ok (some i) =>
              match cfg.sections.get? i with
              | none => .error .panic
              | some sec =>
                  let sec1 :=
                    match sec.get option_name with
                    | some _ =>
                        sec.updateFirst option_name (fun o => o.set_values values)
                    | none =>
                        sec.add (UciOption.new option_name opt_type values)
                  .ok { configs :=
                    assocUpdate t1.configs config_name (fun c => c.setSectionAt i sec1) }

/-- `UciTree::set_option_values`. -/
def UciTree.set_option_values (t : UciTree) (load : Str → Res UciConfig)
    (config_name section_name option_name : Str) (values : List Str) : Res UciTree :=
  if values.length > 1 then
    t._set_option_with_type load config_name section_name option_name .TypeList values
  else
    t._set_option_with_type load config_name section_name option_name .TypeOption values

/-- `UciTree::del_option`: sets `modified` to the result of
`UciSection::del` (which is `false` when the option was absent). -/
def UciTree.del_option (t : UciTree) (load : Str → Res UciConfig)
    (config_name section_name option_name : Str) : Res UciTree :=
  match t.ensureLoaded load config_name with
  | .error e => .error e
  | .ok t1 =>
      match assocLookup t1.configs config_name with
      | none => .error .panic
      | some cfg =>
          match cfg.getMutIdx section_name with
          | .error e => .error e
          | .ok none => .ok t1
          | .ok (some i) =>
              match cfg.sections.get? i with
              | none => .error .panic
              | some sec =>
                  let r := sec.del option_name
                  let upd := fun (c : UciConfig) =>
                    let c1 := c.setSectionAt i r.1
                    { c1 with modified := r.2 }
                  .ok { configs := assocUpdate t1.configs config_name upd }

/-- The body of `UciTree::add_section` once the target config is in the
cache (`cfg` in the source): add or validate the section. -/
def UciTree.addSectionWith (afterEnsure : UciTree)
    (config_name section_type section_name : Str) : Res UciTree :=
  match assocLookup afterEnsure.configs config_name with
  | none => .error .panic
  | some cfg =>
      if section_name = [] then
        let upd := fun (c : UciConfig) =>
          let c1 := c.add (UciSection.new section_type section_name)
          { c1 with modified := true }
        .ok { configs := assocUpdate afterEnsure.configs config_name upd }
      else
        match cfg.get section_name with
        | .ok (some sec) =>
            if sec.sec_type ≠ section_type then
              .error (.err ("type mismatch for ".data ++ config_name ++ ".".data ++
                section_name ++ ", got ".data ++ sec.sec_type ++ ", want ".data ++
                section_type))
            else .ok afterEnsure
        | _ =>
            let upd := fun (c : UciConfig) =>
              let c1 := c.add (UciSection.new section_type section_name)
              { c1 with modified := true }
            .ok { configs := assocUpdate afterEnsure.configs config_name upd }

/-- `UciTree::add_section`: ensure the config is cached (synthesizing a
fresh modified config when loading fails), then run the body. -/
def UciTree.add_section (t : UciTree) (load : Str → Res UciConfig)
    (config_name section_type section_name : Str) : Res UciTree :=
  let afterEnsure : UciTree :=
    match t.ensureLoaded load config_name with
    | .ok t1 => t1
    | .error _ =>
        let fresh := UciConfig.new config_name
        { configs := assocInsert t.configs config_name { fresh with modified := true } }
  afterEnsure.addSectionWith config_name section_type section_name

/-- `UciTree::del_section`: deletes (possibly a no-op) and unconditionally
sets `modified`. -/
def UciTree.del_section (t : UciTree) (load : Str → Res UciConfig)
    (config_name section_type_name : Str) : Res UciTree :=
  match t.ensureLoaded load config_name with
  | .error e => .error e
  | .ok t1 =>
      match assocLookup t1.configs config_name with
      | none => .error .panic
      | some _ =>
          let upd := fun (c : UciConfig) =>
            let c1 := c.delSec section_type_name
            { c1 with modified := true }
          .ok { configs := assocUpdate t1.configs config_name upd }

/-- The `try_for_each` of `commit`: first save error over the modified
configs, in map-iteration order. -/
def firstSaveErr (save : UciConfig → Res Unit) : List (Str × UciConfig) → Option RErr
  | [] => none
  | p :: rest =>
      match save p.2 with
      | .ok _ => firstSaveErr save rest
      | .error e => some e

/-- `UciTree::commit`: save every modified config; only when all saves
succeed are the `modified` flags (of all cached configs) cleared.  On
error the tree is returned unchanged, matching the source, which mutates
nothing on the error path. -/
def UciTree.commit (t : UciTree) (save : UciConfig → Res Unit) : Res Unit × UciTree :=
  match firstSaveErr save (t.configs.filter (fun p => p.2.modified)) with
  | some e => (.error e, t)
  | none =>
      (.ok (), { configs := t.configs.map (fun p => (p.1, { p.2 with modified := false })) })

/-- `UciTree::revert`. -/
def UciTree.revert (t : UciTree) (config_names : List Str) : UciTree :=
  { configs := config_names.foldl (fun m n => assocRemove m n) t.configs }

/-! ## Lexer (src/src/storage/uci/parser/lexer/mod.rs, token/mod.rs)

The lexer is a state machine over the input; `next_item` drives `action`
until an item is available.  Two of the source's internal loops
(`accept_ident` and the loop of `lex_package_name`) spin forever when
`next_rune` keeps returning `None` at end of input (the `None` value falls
into their catch-all match arm); they are modelled with fuel, one unit per
loop iteration, and `none` anywhere in the lexer API means the fuel ran
out — in particular a `none` for *every* fuel is a non-terminating run of
the source.  The remaining loops terminate structurally and are modelled
by recursion on the unread input. -/

inductive TokenItemType where
  | Error | Eof | Package | Config | Option | List | Ident | String
  deriving DecidableEq, Repr

structure TokenItem where
  typ : TokenItemType
  val : Str
  pos : Nat
  deriving DecidableEq, Repr

inductive LexerState where
  | KeyWord | Comment | Package | PackageName | Config | ConfigType | OptionalName
  | Option | List | OptionName | Value | Quoted | Unquoted
  deriving DecidableEq, Repr

structure Lexer where
  name : Str
  input : Str
  start : Nat
  pos : Nat
  width : Nat
  state : Option LexerState
  items : Option (List TokenItem)
  deriving DecidableEq, Repr

/-- `Lexer::new`. -/
def Lexer.new (name : Str) (input : Str) : Lexer :=
  { name := name, input := input, start := 0, pos := 0, width := 0,
    state := some .KeyWord, items := some [] }

lemma getq_some_lt {α} {xs : List α} {n : Nat} {a : α} (h : xs.get? n = some a) :
    n < xs.length := by
  by_contra hn
  rw [List.get?_eq_none.mpr (Nat.le_of_not_lt hn)] at h
  cases h

/-- `Lexer::next_rune` (`width` is 1 character, see the header comment). -/
def Lexer.nextRune (l : Lexer) : Lexer × Option Char :=
  match l.input.get? l.pos with
  | some c => ({ l with width := 1, pos := l.pos + 1 }, some c)
  | none => ({ l with width := 0 }, none)

/-- `Lexer::backup`. -/
def Lexer.backup (l : Lexer) : Lexer :=
  { l with pos := l.pos - l.width }

/-- `Lexer::ignore`. -/
def Lexer.ignore (l : Lexer) : Lexer :=
  { l with start := l.pos }

/-- `Lexer::peek`. -/
def Lexer.peek (l : Lexer) : Lexer × Option Char :=
  let r := l.nextRune
  (r.1.backup, r.2)

/-- `Lexer::rest` (total: `pos` never passes the end of the input). -/
def Lexer.rest (l : Lexer) : Str :=
  l.input.drop l.pos

/-- The slice `input[start..pos]`. -/
def Lexer.curSlice (l : Lexer) : Str :=
  (l.input.drop l.start).take (l.pos - l.start)

/-- Push an item on the queue.  The driver only runs actions while
`items` is `Some`, so the source's `unwrap` cannot fail there. -/
def Lexer.pushItem (l : Lexer) (it : TokenItem) : Lexer :=
  { l with items := l.items.map (· ++ [it]) }

/-- `Lexer::emit`: emit `input[start..pos]` unless the slice is empty. -/
def Lexer.emit (l : Lexer) (typ : TokenItemType) : Lexer :=
  if l.start < l.pos then
    let l1 := l.pushItem { typ := typ, val := l.curSlice, pos := l.pos }
    { l1 with start := l1.pos }
  else l

/-- `Lexer::emit_error`: push the error item; the caller returns `None`
as the next state, folded in here. -/
def Lexer.emitErr (l : Lexer) (msg : Str) : Lexer :=
  let l1 := l.pushItem
    { typ := .Error, val := "config: ".data ++ l.name ++ ", ".data ++ msg, pos := l.pos }
  { l1 with state := none }

def Lexer.withState (l : Lexer) (s : Option LexerState) : Lexer :=
  { l with state := s }

/-- `char::is_whitespace` (the Unicode White_Space set used by Rust). -/
def isRustWhitespace (c : Char) : Bool :=
  c = ' ' ∨ c = '\t' ∨ c = '\n' ∨ c = '\x0b' ∨ c = '\x0c' ∨ c = '\r' ∨
  c.toNat = 0x85 ∨ c.toNat = 0xa0 ∨ c.toNat = 0x1680 ∨
  (0x2000 ≤ c.toNat ∧ c.toNat ≤ 0x200a) ∨
  c.toNat = 0x2028 ∨ c.toNat = 0x2029 ∨ c.toNat = 0x202f ∨
  c.toNat = 0x205f ∨ c.toNat = 0x3000

/-- Loop of `consume_nowrap_whitespace` (peek, consume space/tab).
Structural recursion on a gas counter initialised to the number of unread
characters: the counter reaches 0 only at end of input, where the body
behaves exactly like the `None`-rune exit, so the function agrees with
the source loop everywhere. -/
def Lexer.nowrapWsLoopGo : Nat → Lexer → Lexer
  | 0, l => { l with width := 0 }
  | gas + 1, l =>
      match l.input.get? l.pos with
      | none => { l with width := 0 }
      | some c =>
          if c = ' ' ∨ c = '\t' then
            Lexer.nowrapWsLoopGo gas { l with width := 1, pos := l.pos + 1 }
          else { l with width := 1 }

def Lexer.nowrapWsLoop (l : Lexer) : Lexer :=
  Lexer.nowrapWsLoopGo (l.input.length - l.pos) l

/-- `Lexer::consume_nowrap_whitespace`. -/
def Lexer.consumeNowrapWs (l : Lexer) : Lexer :=
  l.nowrapWsLoop.ignore

/-- Loop of `consume_whitespace` (peek, consume any whitespace); gas as
in `nowrapWsLoopGo`. -/
def Lexer.wsLoopGo : Nat → Lexer → Lexer
  | 0, l => { l with width := 0 }
  | gas + 1, l =>
      match l.input.get? l.pos with
      | none => { l with width := 0 }
      | some c =>
          if isRustWhitespace c then Lexer.wsLoopGo gas { l with width := 1, pos := l.pos + 1 }
          else { l with width := 1 }

def Lexer.wsLoop (l : Lexer) : Lexer :=
  Lexer.wsLoopGo (l.input.length - l.pos) l

/-- `Lexer::consume_whitespace`. -/
def Lexer.consumeWs (l : Lexer) : Lexer :=
  l.wsLoop.ignore

/-- The identifier characters of `accept_ident`. -/
def isIdentChar (c : Char) : Bool :=
  c = '-' ∨ c = '_' ∨ ('a' ≤ c ∧ c ≤ 'z') ∨ ('A' ≤ c ∧ c ≤ 'Z') ∨ ('0' ≤ c ∧ c ≤ '9')

/-- `Lexer::accept_ident`.  At end of input `next_rune` returns `None`,
which falls into the loop's catch-all arm: the source loops forever, so
the `none` case recurses on fuel with the state the iteration leaves
(`width := 0`). -/
def Lexer.acceptIdent : Nat → Lexer → Option Lexer
  | 0, _ => none
  | fuel + 1, l =>
      match l.input.get? l.pos with
      | none => Lexer.acceptIdent fuel { l with width := 0 }
      | some c =>
          if isIdentChar c then Lexer.acceptIdent fuel { l with width := 1, pos := l.pos + 1 }
          else some (Lexer.backup { l with width := 1, pos := l.pos + 1 })

/-- `Lexer::accept_once`. -/
def Lexer.acceptOnce (l : Lexer) (val : Str) : Lexer × Bool :=
  match l.nextRune with
  | (l1, some c) => if val.contains c then (l1, true) else (l1.backup, false)
  | (l1, none) => (l1.backup, false)

/-- The `while let` of `accept_comment`: consume until (and including) a
newline, or until end of input; gas as in `nowrapWsLoopGo`. -/
def Lexer.commentWhileGo : Nat → Lexer → Lexer
  | 0, l => { l with width := 0 }
  | gas + 1, l =>
      match l.input.get? l.pos with
      | none => { l with width := 0 }
      | some c =>
          if c = '\n' then { l with width := 1, pos := l.pos + 1 }
          else Lexer.commentWhileGo gas { l with width := 1, pos := l.pos + 1 }

def Lexer.commentWhile (l : Lexer) : Lexer :=
  Lexer.commentWhileGo (l.input.length - l.pos) l

/-- `Lexer::accept_comment`.  The initial `next_rune().unwrap()` panics
at end of input; that is unreachable, because `lex_comment` only runs
when the rest of the input starts with `#`, and is modelled by the
iteration's own no-op. -/
def Lexer.acceptComment (l : Lexer) : Lexer :=
  match l.input.get? l.pos with
  | none => Lexer.backup { l with width := 0 }
  | some c =>
      let l1 : Lexer := { l with width := 1, pos := l.pos + 1 }
      if c = '#' then l1.commentWhile.backup else l1.backup

/-- `Lexer::emit_string`: emit `input[start+1..pos-1]` (the quoted body)
unless empty. -/
def Lexer.emitString (l : Lexer) (typ : TokenItemType) : Lexer :=
  if l.start + 1 < l.pos then
    let l1 := l.pushItem
      { typ := typ
        val := (l.input.drop (l.start + 1)).take (l.pos - 1 - (l.start + 1))
        pos := l.pos }
    { l1 with start := l1.pos }
  else l

/-- `Lexer::eof`: the Eof item built from the current slice. -/
def Lexer.eofItem (l : Lexer) : TokenItem :=
  { typ := .Eof, val := l.curSlice, pos := l.pos }

/-- `Lexer::stop`. -/
def Lexer.stop (l : Lexer) : TokenItem × Lexer :=
  match l.items with
  | none => (l.eofItem, l)
  | some [] => (l.eofItem, { l with items := none })
  | some (it :: _) => (it, { l with items := none })

def kwPackage : Str := "package".data
def kwConfig : Str := "config".data
def kwOption : Str := "option".data
def kwList : Str := "list".data

/-- `Lexer::lex_key_word`. -/
def Lexer.lexKeyWord (l : Lexer) : Lexer :=
  let l := l.consumeWs
  let r := l.rest
  if r.take 1 = ['#'] then l.withState (some .Comment)
  else if kwPackage.isPrefixOf r then l.withState (some .Package)
  else if kwConfig.isPrefixOf r then l.withState (some .Config)
  else if kwOption.isPrefixOf r then l.withState (some .Option)
  else if kwList.isPrefixOf r then l.withState (some .List)
  else
    match l.nextRune with
    | (l1, none) => (l1.emit .Eof).withState none
    | (l1, some _) =>
        l1.emitErr "expected keyword (package, config, option, list) or eof".data

/-- `Lexer::lex_comment`. -/
def Lexer.lexComment (l : Lexer) : Lexer :=
  (l.acceptComment.ignore).withState (some .KeyWord)

/-- `Lexer::lex_package`. -/
def Lexer.lexPackage (l : Lexer) : Lexer :=
  (Lexer.emit { l with pos := l.pos + kwPackage.length } .Package).withState
    (some .PackageName)

/-- The loop of `lex_package_name`.  A `None` from `next_rune` falls into
the catch-all arm, so at end of input the source loops forever: the
`none` branch recurses on fuel with the iteration's state. -/
def Lexer.packageNameLoop : Nat → Lexer → Option Lexer
  | 0, _ => none
  | fuel + 1, l =>
      match l.nextRune with
      | (l1, some c) =>
          if c = '\n' then some (l1.emitErr "incomplete package name".data)
          else if isRustWhitespace c then Lexer.packageNameLoop fuel l1.ignore
          else if c = '\'' ∨ c = '"' then some ((l1.backup).withState (some .Quoted))
          else Lexer.packageNameLoop fuel l1
      | (l1, none) => Lexer.packageNameLoop fuel l1

/-- `Lexer::lex_package_name`. -/
def Lexer.lexPackageName (fuel : Nat) (l : Lexer) : Option Lexer :=
  Lexer.packageNameLoop fuel l

/-- `Lexer::lex_config`. -/
def Lexer.lexConfig (l : Lexer) : Lexer :=
  ((Lexer.emit { l with pos := l.pos + kwConfig.length } .Config).consumeNowrapWs).withState
    (some .ConfigType)

/-- `Lexer::lex_config_type`. -/
def Lexer.lexConfigType (fuel : Nat) (l : Lexer) : Option Lexer :=
  (l.acceptIdent fuel).map fun l1 =>
    ((l1.emit .Ident).consumeNowrapWs).withState (some .OptionalName)

/-- `Lexer::lex_optional_name`.  The catch-all arm (which also catches a
`None` rune at end of input) runs `accept_ident` and emits a String. -/
def Lexer.lexOptionalName (fuel : Nat) (l : Lexer) : Option Lexer :=
  match l.nextRune with
  | (l1, some c) =>
      if c = '\n' then some (l1.ignore.withState (some .KeyWord))
      else if c = '"' ∨ c = '\'' then some (l1.backup.withState (some .Quoted))
      else
        (l1.acceptIdent fuel).map fun l2 => (l2.emit .String).withState (some .KeyWord)
  | (l1, none) =>
      (l1.acceptIdent fuel).map fun l2 => (l2.emit .String).withState (some .KeyWord)

/-- `Lexer::lex_option`. -/
def Lexer.lexOption (l : Lexer) : Lexer :=
  ((Lexer.emit { l with pos := l.pos + kwOption.length } .Option).consumeNowrapWs).withState
    (some .OptionName)

/-- `Lexer::lex_list`. -/
def Lexer.lexList (l : Lexer) : Lexer :=
  ((Lexer.emit { l with pos := l.pos + kwList.length } .List).consumeNowrapWs).withState
    (some .OptionName)

/-- `Lexer::lex_option_name`. -/
def Lexer.lexOptionName (fuel : Nat) (l : Lexer) : Option Lexer :=
  (l.acceptIdent fuel).map fun l1 =>
    ((l1.emit .Ident).consumeNowrapWs).withState (some .Value)

/-- `Lexer::lex_value`. -/
def Lexer.lexValue (l : Lexer) : Lexer :=
  match l.peek with
  | (l1, some c) =>
      if c = '"' ∨ c = '\'' then l1.withState (some .Quoted)
      else l1.withState (some .Unquoted)
  | (l1, none) => l1.withState (some .Unquoted)

/-- The loop of `lex_quoted` after the opening quote `q` was read:
stops at the matching quote, errors on a bare newline, end of input, or a
trailing backslash. -/
def Lexer.quotedLoopGo (q : Char) : Nat → Lexer → Lexer × Bool
  | 0, l => ({ l with width := 0 }, false)
  | gas + 1, l =>
      match l.input.get? l.pos with
      | none => ({ l with width := 0 }, false)
      | some c =>
          let l1 : Lexer := { l with width := 1, pos := l.pos + 1 }
          if c = '\\' then
            match l1.input.get? l1.pos with
            | some _ => Lexer.quotedLoopGo q gas { l1 with width := 1, pos := l1.pos + 1 }
            | none => ({ l1 with width := 0 }, false)
          else if c = '\n' then (l1, false)
          else if c = q then (l1, true)
          else Lexer.quotedLoopGo q gas l1

def Lexer.quotedLoop (q : Char) (l : Lexer) : Lexer × Bool :=
  Lexer.quotedLoopGo q (l.input.length - l.pos) l

/-- `Lexer::lex_quoted`. -/
def Lexer.lexQuoted (l : Lexer) : Lexer :=
  match l.nextRune with
  | (l1, none) => l1.withState none
  | (l1, some q) =>
      if q ≠ '"' ∧ q ≠ '\'' then l1.emitErr "expected quotation".data
      else
        match l1.quotedLoop q with
        | (l2, false) => l2.emitErr "unterminated quoted string".data
        | (l2, true) =>
            ((l2.emitString .String).consumeNowrapWs).withState (some .KeyWord)

/-- The loop of `lex_unquoted`: stops before a space, tab, `#`, or
newline; errors at end of input or on a trailing backslash. -/
def Lexer.unquotedLoopGo : Nat → Lexer → Lexer × Bool
  | 0, l => ({ l with width := 0 }, false)
  | gas + 1, l =>
      match l.input.get? l.pos with
      | none => ({ l with width := 0 }, false)
      | some c =>
          let l1 : Lexer := { l with width := 1, pos := l.pos + 1 }
          if c = '\\' then
            match l1.input.get? l1.pos with
            | some _ => Lexer.unquotedLoopGo gas { l1 with width := 1, pos := l1.pos + 1 }
            | none => ({ l1 with width := 0 }, false)
          else if c = ' ' ∨ c = '\t' ∨ c = '#' ∨ c = '\n' then (l1, true)
          else Lexer.unquotedLoopGo gas l1

def Lexer.unquotedLoop (l : Lexer) : Lexer × Bool :=
  Lexer.unquotedLoopGo (l.input.length - l.pos) l

/-- `Lexer::lex_unquoted`. -/
def Lexer.lexUnquoted (l : Lexer) : Lexer :=
  match l.unquotedLoop with
  | (l1, false) => l1.emitErr "unterminated unquoted string".data
  | (l1, true) =>
      let l2 := (l1.backup.emit .String).consumeNowrapWs
      let l3 := (l2.acceptOnce "\n".data).1
      l3.ignore.withState (some .KeyWord)

/-- `LexerStateMachine::action`: dispatch on the current state.  `none`
means a diverging inner loop ran out of fuel. -/
def Lexer.action (fuel : Nat) (l : Lexer) : Option Lexer :=
  match l.state with
  | none => some l
  | some .Comment => some l.lexComment
  | some .Config => some l.lexConfig
  | some .ConfigType => l.lexConfigType fuel
  | some .KeyWord => some l.lexKeyWord
  | some .List => some l.lexList
  | some .Option => some l.lexOption
  | some .OptionName => l.lexOptionName fuel
  | some .OptionalName => l.lexOptionalName fuel
  | some .Package => some l.lexPackage
  | some .PackageName => l.lexPackageName fuel
  | some .Quoted => some l.lexQuoted
  | some .Unquoted => some l.lexUnquoted
  | some .Value => some l.lexValue

/-- `Lexer::next_item`: the driver loop, one fuel unit per iteration. -/
def Lexer.nextItem : Nat → Lexer → Option (TokenItem × Lexer)
  | 0, _ => none
  | fuel + 1, l =>
      match l.state with
      | none => some l.stop
      | some _ =>
          match l.items with
          | none => some l.stop
          | some (it :: rest) => some (it, { l with items := some rest })
          | some [] =>
              match l.action fuel with
              | none => none
              | some l1 => Lexer.nextItem fuel l1

/-! ## Scanner and parser (src/src/storage/uci/parser/mod.rs)

The scanner pulls lexer items (with one-item pushback) and produces
grammar tokens; `uci_parse` folds the token stream into a `UciConfig`.
All fuel (`none`) semantics are inherited from the lexer. -/

inductive ScanTokenType where
  | Error | Package | Section | Option | List
  deriving DecidableEq, Repr

structure Token where
  typ : ScanTokenType
  items : List TokenItem
  deriving DecidableEq, Repr

inductive ScannerState where
  | Start | Package | Section | Option | OptionName | OptionValue | ListName | ListValue
  deriving DecidableEq, Repr

structure Scanner where
  lexer : Lexer
  state : Option ScannerState
  last : Option TokenItem
  curr : List TokenItem
  tokens : Option (List Token)
  deriving DecidableEq, Repr

/-- `Scanner::new`. -/
def Scanner.new (name : Str) (input : Str) : Scanner :=
  { lexer := Lexer.new name input, state := some .Start, last := none,
    curr := [], tokens := some [] }

/-- `Scanner::next_item` (uses the pushback slot first). -/
def Scanner.nextItemS (fuel : Nat) (s : Scanner) : Option (TokenItem × Scanner) :=
  match s.last with
  | some it => some (it, { s with last := none })
  | none =>
      (s.lexer.nextItem fuel).map fun r => (r.1, { s with lexer := r.2 })

/-- `Scanner::backup`. -/
def Scanner.backupS (s : Scanner) (it : TokenItem) : Scanner :=
  { s with last := some it }

/-- `Scanner::peek`. -/
def Scanner.peekS (fuel : Nat) (s : Scanner) : Option (TokenItem × Scanner) :=
  (s.nextItemS fuel).map fun r => (r.1, r.2.backupS r.1)

/-- `Scanner::accept_once`. -/
def Scanner.acceptOnceS (fuel : Nat) (s : Scanner) (it : TokenItemType) :
    Option (Scanner × Bool) :=
  (s.nextItemS fuel).map fun r =>
    if r.1.typ = it then ({ r.2 with curr := r.2.curr ++ [r.1] }, true)
    else (r.2.backupS r.1, false)

/-- `Scanner::emit`. -/
def Scanner.emitS (s : Scanner) (typ : ScanTokenType) : Scanner :=
  { s with tokens := s.tokens.map (· ++ [{ typ := typ, items := s.curr }]), curr := [] }

/-- `Scanner::emit_error`: push the error token; the `None` next state is
folded in. -/
def Scanner.emitErrS (s : Scanner) (msg : Str) : Scanner :=
  { s with
    tokens := s.tokens.map
      (· ++ [{ typ := .Error, items := [{ typ := .Error, val := msg, pos := 0 }] }])
    state := none }

def Scanner.withStateS (s : Scanner) (st : Option ScannerState) : Scanner :=
  { s with state := st }

/-- `Scanner::scan_start`. -/
def Scanner.scanStart (fuel : Nat) (s : Scanner) : Option Scanner :=
  (s.nextItemS fuel).map fun r =>
    let (it, s1) := r
    if it.typ = .Package then s1.withStateS (some .Package)
    else if it.typ = .Config then s1.withStateS (some .Section)
    else if it.typ = .Error then s1.emitErrS it.val
    else if it.typ = .Eof then s1.withStateS none
    else s1.emitErrS "expected package or config token".data

/-- `Scanner::scan_package`. -/
def Scanner.scanPackage (fuel : Nat) (s : Scanner) : Option Scanner :=
  (s.nextItemS fuel).map fun r =>
    let (it, s1) := r
    if it.typ = .String then
      (({ s1 with curr := s1.curr ++ [it] }).emitS .Package).withStateS (some .Start)
    else if it.typ = .Error then s1.emitErrS it.val
    else s1.emitErrS "expected string value while parsing package".data

/-- `Scanner::scan_section`. -/
def Scanner.scanSection (fuel : Nat) (s : Scanner) : Option Scanner :=
  match s.nextItemS fuel with
  | none => none
  | some (it, s1) =>
      if it.typ = .Ident then
        let s2 : Scanner := { s1 with curr := s1.curr ++ [it] }
        match s2.peekS fuel with
        | none => none
        | some (tok, s3) =>
            if tok.typ = .String then
              match s3.acceptOnceS fuel .String with
              | none => none
              | some (s4, _) => some ((s4.emitS .Section).withStateS (some .Option))
            else some ((s3.emitS .Section).withStateS (some .Option))
      else if it.typ = .Error then some (s1.emitErrS it.val)
      else some (s1.emitErrS "expected identifier while parsing config section".data)

/-- `Scanner::scan_option`. -/
def Scanner.scanOption (fuel : Nat) (s : Scanner) : Option Scanner :=
  (s.nextItemS fuel).map fun r =>
    let (it, s1) := r
    if it.typ = .Option then s1.withStateS (some .OptionName)
    else if it.typ = .List then s1.withStateS (some .ListName)
    else if it.typ = .Error then s1.emitErrS it.val
    else (s1.backupS it).withStateS (some .Start)

/-- `Scanner::scan_option_name`. -/
def Scanner.scanOptionName (fuel : Nat) (s : Scanner) : Option Scanner :=
  (s.acceptOnceS fuel .Ident).map fun r =>
    if r.2 then r.1.withStateS (some .OptionValue)
    else r.1.emitErrS "expected option name".data

/-- `Scanner::scan_list_name`. -/
def Scanner.scanListName (fuel : Nat) (s : Scanner) : Option Scanner :=
  (s.acceptOnceS fuel .Ident).map fun r =>
    if r.2 then r.1.withStateS (some .ListValue)
    else r.1.emitErrS "expected option name".data

/-- `Scanner::scan_option_value`. -/
def Scanner.scanOptionValue (fuel : Nat) (s : Scanner) : Option Scanner :=
  (s.nextItemS fuel).map fun r =>
    let (it, s1) := r
    if it.typ = .String then
      (({ s1 with curr := s1.curr ++ [it] }).emitS .Option).withStateS (some .Option)
    else if it.typ = .Error then s1.emitErrS it.val
    else s1.emitErrS "expected option value".data

/-- `Scanner::scan_list_value`. -/
def Scanner.scanListValue (fuel : Nat) (s : Scanner) : Option Scanner :=
  (s.nextItemS fuel).map fun r =>
    let (it, s1) := r
    if it.typ = .String then
      (({ s1 with curr := s1.curr ++ [it] }).emitS .List).withStateS (some .Option)
    else if it.typ = .Error then s1.emitErrS it.val
    else s1.emitErrS "expected option value".data

/-- `ScannerStateMachine::action`. -/
def Scanner.actionS (fuel : Nat) (s : Scanner) : Option Scanner :=
  match s.state with
  | none => some s
  | some .ListName => s.scanListName fuel
  | some .ListValue => s.scanListValue fuel
  | some .Option => s.scanOption fuel
  | some .OptionName => s.scanOptionName fuel
  | some .OptionValue => s.scanOptionValue fuel
  | some .Package => s.scanPackage fuel
  | some .Section => s.scanSection fuel
  | some .Start => s.scanStart fuel

/-- `Scanner::stop`. -/
def Scanner.stopS (s : Scanner) : Option Token × Scanner :=
  match s.tokens with
  | none => (none, s)
  | some ts =>
      let lx := s.lexer.stop.2
      match ts with
      | [] => (none, { s with lexer := lx, tokens := none })
      | t :: _ => (some t, { s with lexer := lx, tokens := none })

/-- `Iterator::next` for `Scanner`: the driver loop, one fuel unit per
iteration. -/
def Scanner.next : Nat → Scanner → Option (Option Token × Scanner)
  | 0, _ => none
  | fuel + 1, s =>
      match s.state with
      | none => some s.stopS
      | some _ =>
          match s.tokens with
          | none => some (none, s)
          | some (t :: rest) => some (some t, { s with tokens := some rest })
          | some [] =>
              match s.actionS fuel with
              | none => none
              | some s1 => Scanner.next fuel s1

/-- Collect the scanner's token stream (the sequence `try_for_each`
pulls); `none` when the pipeline runs out of fuel. -/
def scanRun : Nat → Scanner → Option (List Token)
  | 0, _ => none
  | fuel + 1, s =>
      match Scanner.next (fuel + 1) s with
      | none => none
      | some (none, _) => some []
      | some (some t, s1) => (scanRun fuel s1).map (t :: ·)

/-- One step of the fold in `uci_parse`; the state is the config under
construction and the pending section. -/
def parseTok (st : UciConfig × Option UciSection) (tok : Token) :
    Res (UciConfig × Option UciSection) :=
  match tok.typ with
  | .Error =>
      match tok.items.head? with
      | none => .error .panic
      | some it => .error (.err ("parse error: ".data ++ it.val))
  | .Package =>
      match tok.items.head? with
      | none => .error .panic
      | some it => .ok (st.1.set_pkg_name it.val, st.2)
  | .Section =>
      let flushed : Option UciConfig :=
        match st.2 with
        | some s =>
            if s.sec_type ≠ [] ∧ s.name ≠ [] then st.1.mergeSec s
            else some (st.1.add s)
        | none => some st.1
      match flushed with
      | none => .error .panic
      | some cfg =>
          if tok.items.length = 2 then
            match tok.items.get? 0, tok.items.get? 1 with
            | some t0, some t1 => .ok (cfg, some (UciSection.new t0.val t1.val))
            | _, _ => .error .panic
          else
            match tok.items.head? with
            | none => .error .panic
            | some t0 => .ok (cfg, some (UciSection.new t0.val []))
  | .Option =>
      match tok.items.get? 0, tok.items.get? 1 with
      | some t0, some t1 =>
          match st.2 with
          | none => .error .panic
          | some sec =>
              let sec1 :=
                match sec.get t0.val with
                | some _ => sec.updateFirst t0.val (fun o => o.set_values [t1.val])
                | none => sec.add (UciOption.new t0.val .TypeOption [t1.val])
              .ok (st.1, some sec1)
      | _, _ => .error .panic
  | .List =>
      match tok.items.get? 0, tok.items.get? 1 with
      | some t0, some t1 =>
          match st.2 with
          | none => .error .panic
          | some sec =>
              let sec1 :=
                match sec.get t0.val with
                | some _ => sec.updateFirst t0.val (fun o => o.merge_values [t1.val])
                | none => sec.add (UciOption.new t0.val .TypeList [t1.val])
              .ok (st.1, some sec1)
      | _, _ => .error .panic

/-- The `try_for_each` fold of `uci_parse` over the token stream,
followed by the final flush of the pending section. -/
def uciParseTokens : List Token → UciConfig × Option UciSection →
    Res UciConfig
  | [], st =>
      match st.2 with
      | some s =>
          if s.sec_type ≠ [] ∧ s.name ≠ [] then
            match st.1.mergeSec s with
            | none => .error .panic
            | some cfg => .ok cfg
          else .ok (st.1.add s)
      | none => .ok st.1
  | tok :: rest, st =>
      match parseTok st tok with
      | .error e => .error e
      | .ok st1 => uciParseTokens rest st1

/-- `uci_parse`: run the scanner over the input and fold the tokens.
`none` = the pipeline runs out of fuel (a diverging source run when it
holds for every fuel). -/
def uci_parse (fuel : Nat) (name : Str) (input : Str) : Option (Res UciConfig) :=
  (scanRun fuel (Scanner.new name input)).map fun toks =>
    uciParseTokens toks (UciConfig.new name, none)

/-! ## Claim C10: boolean option values -/

/-- The strings `get_option_bool_value` maps to `true`. -/
def boolTrueWords : List Str :=
  ["1".data, "on".data, "true".data, "yes".data, "enabled".data]

/-- C10: whenever `get_option_last_value` returns a value for a
config/section/option triple, `get_option_bool_value` returns `Ok(true)`
exactly when that value is one of "1", "on", "true", "yes", "enabled",
and `Ok(false)` for every other string — an unrecognized value yields
`false`, never an error. -/
theorem C10_bool_value (t : UciTree) (cn sn onm v : Str)
    (h : t.get_option_last_value cn sn onm = .ok (some v)) :
    t.get_option_bool_value cn sn onm = .ok (boolTrueWords.contains v) := by
  unfold UciTree.get_option_bool_value
  rw [h]
  dsimp only
  split_ifs with h1 h2 h3 h4 h5 h6 h7 h8 h9 <;>
    simp_all [boolTrueWords, List.contains_cons, beq_iff_eq]

/-- The config used by the C10 witness: option `o` of section `s` holds
the unrecognized value "maybe". -/
def c10Cfg : UciConfig where
  name := "c".data
  pkg_name := []
  modified := false
  sections := [{ name := "s".data
                 sec_type := "t".data
                 options := [{ name := "o".data
                               values := ["maybe".data]
                               opt_type := .TypeOption }] }]

def c10Tree : UciTree :=
  { configs := [("c".data, c10Cfg)] }

/-- Witness for C10 at a concrete store: the last value is "maybe" and
the boolean view is `Ok(false)`. -/
theorem C10_bool_value_witness :
    c10Tree.get_option_last_value "c".data "s".data "o".data = .ok (some "maybe".data) ∧
    c10Tree.get_option_bool_value "c".data "s".data "o".data = .ok false := by
  constructor
  · decide
  · have h := C10_bool_value c10Tree "c".data "s".data "o".data "maybe".data (by decide)
    simpa using h

/-! ## Claim C6: option merge semantics -/

lemma merge_values_name (o : UciOption) (vs : List Str) :
    (o.merge_values vs).name = o.name := by
  unfold UciOption.merge_values
  cases o.opt_type <;> simp [UciOption.set_values]

/-- The characteristic property of the `UciSection::merge` loop: acting
on the first option whose name matches the incoming one. -/
lemma mergeInto_find (opts : List UciOption) (o ex : UciOption)
    (h : opts.find? (fun p => p.name = o.name) = some ex) :
    (mergeInto opts o).find? (fun p => p.name = o.name) =
      some (if ex.opt_type = o.opt_type then ex.merge_values o.values
            else (ex.set_type o.opt_type).set_values o.values) := by
  induction opts with
  | nil => simp [List.find?] at h
  | cons a rest ih =>
      by_cases ha : a.name = o.name
      · have hex : ex = a := by
          rw [List.find?] at h
          simp [ha] at h
          exact h.symm
        subst hex
        by_cases ht : ex.opt_type = o.opt_type
        · rw [mergeInto]
          simp only [ha, ht, and_self, if_true]
          rw [List.find?]
          simp [merge_values_name, ha, ht]
        · rw [mergeInto]
          simp only [ha, ht, and_false, if_false, and_true, if_true]
          rw [List.find?]
          simp [UciOption.set_type, UciOption.set_values, ha, ht]
      · rw [List.find?] at h
        simp [ha] at h
        rw [mergeInto]
        simp only [ha, false_and, if_false]
        rw [List.find?]
        simp [ha]
        exact ih h

/-- C6: merging an incoming List option into an existing List option of
the same name yields the existing values first in stored order, then each
incoming value not already present among them, in incoming order; merging
any option into an existing Scalar option of the same name overwrites the
option's values and kind wholesale. -/
theorem C6_merge_union_scalar_overwrite :
    (∀ (s : UciSection) (o ex : UciOption),
        s.get o.name = some ex → ex.opt_type = .TypeList → o.opt_type = .TypeList →
        (s.merge o).get o.name =
          some { name := ex.name, opt_type := .TypeList,
                 values := ex.values ++ o.values.filter (fun v => ¬ ex.values.contains v) }) ∧
    (∀ (s : UciSection) (o ex : UciOption),
        s.get o.name = some ex → ex.opt_type = .TypeOption →
        (s.merge o).get o.name =
          some { name := ex.name, opt_type := o.opt_type, values := o.values }) := by
  constructor
  · intro s o ex h hex ho
    have := mergeInto_find s.options o ex h
    rw [UciSection.merge, UciSection.get]
    simp only
    rw [this]
    rw [if_pos (hex.trans ho.symm)]
    unfold UciOption.merge_values
    rw [hex]
  · intro s o ex h hex
    have := mergeInto_find s.options o ex h
    rw [UciSection.merge, UciSection.get]
    simp only
    rw [this]
    by_cases ht : ex.opt_type = o.opt_type
    · rw [if_pos ht]
      unfold UciOption.merge_values
      rw [hex]
      simp [UciOption.set_values, ← ht, hex]
    · rw [if_neg ht]
      simp [UciOption.set_type, UciOption.set_values]

/-- Section holding the list option `k = ["a","b"]` for the C6 witness. -/
def c6ListSec : UciSection where
  name := "s".data
  sec_type := "t".data
  options := [{ name := "k".data
                values := ["a".data, "b".data]
                opt_type := .TypeList }]

/-- Section holding the scalar option `k = ["x"]` for the C6 witness. -/
def c6ScalarSec : UciSection where
  name := "s".data
  sec_type := "t".data
  options := [{ name := "k".data
                values := ["x".data]
                opt_type := .TypeOption }]

/-- Witness for C6: `["a","b"]` merged with incoming `["b","c"]` yields
`["a","b","c"]`, and merging into a scalar overwrites the values. -/
theorem C6_merge_union_scalar_overwrite_witness :
    (c6ListSec.merge
        { name := "k".data, values := ["b".data, "c".data], opt_type := .TypeList }).get
        "k".data =
      some { name := "k".data, values := ["a".data, "b".data, "c".data],
             opt_type := .TypeList } ∧
    (c6ScalarSec.merge
        { name := "k".data, values := ["y".data], opt_type := .TypeList }).get
        "k".data =
      some { name := "k".data, values := ["y".data], opt_type := .TypeList } := by
  constructor
  · have h := C6_merge_union_scalar_overwrite.1 c6ListSec
      { name := "k".data, values := ["b".data, "c".data], opt_type := .TypeList }
      { name := "k".data, values := ["a".data, "b".data], opt_type := .TypeList }
      (by decide) (by decide) (by decide)
    simpa using h
  · have h := C6_merge_union_scalar_overwrite.2 c6ScalarSec
      { name := "k".data, values := ["y".data], opt_type := .TypeList }
      { name := "k".data, values := ["x".data], opt_type := .TypeOption }
      (by decide) (by decide)
    simpa using h

/-! ## Association-list and option-list lemmas -/

lemma assocLookup_insert_self (m : ConfigMap) (k : Str) (v : UciConfig) :
    assocLookup (assocInsert m k v) k = some v := by
  induction m with
  | nil => simp [assocInsert, assocLookup]
  | cons p rest ih =>
      by_cases hp : p.1 = k
      · simp [assocInsert, hp, assocLookup]
      · simp only [assocInsert, hp, if_false]
        unfold assocLookup at ih ⊢
        rw [List.find?_cons_of_neg]
        · exact ih
        · simp [hp]

lemma assocLookup_update_self (m : ConfigMap) (k : Str) (f : UciConfig → UciConfig) :
    assocLookup (assocUpdate m k f) k = (assocLookup m k).map f := by
  induction m with
  | nil => simp [assocUpdate, assocLookup]
  | cons p rest ih =>
      by_cases hp : p.1 = k
      · simp [assocUpdate, hp, assocLookup]
      · simp only [assocUpdate, hp, if_false]
        unfold assocLookup at ih ⊢
        rw [List.find?_cons_of_neg, List.find?_cons_of_neg]
        · exact ih
        · simp [hp]
        · simp [hp]

lemma assocLookup_clear (m : ConfigMap) (k : Str) :
    assocLookup (m.map (fun p => (p.1, { p.2 with modified := false }))) k =
      (assocLookup m k).map (fun c => { c with modified := false }) := by
  induction m with
  | nil => simp [assocLookup]
  | cons p rest ih =>
      by_cases hp : p.1 = k
      · simp [assocLookup, hp]
      · unfold assocLookup at ih ⊢
        rw [List.map_cons, List.find?_cons_of_neg, List.find?_cons_of_neg]
        · exact ih
        · simp [hp]
        · simp [hp]

lemma find?_updateFirstOpt (nm : Str) (f : UciOption → UciOption)
    (opts : List UciOption) (hf : ∀ o, (f o).name = o.name) :
    (updateFirstOpt nm f opts).find? (fun o => o.name = nm) =
      (opts.find? (fun o => o.name = nm)).map f := by
  induction opts with
  | nil => simp [updateFirstOpt]
  | cons o rest ih =>
      by_cases ho : o.name = nm
      · rw [updateFirstOpt]
        simp only [ho, if_true]
        rw [List.find?_cons_of_pos, List.find?_cons_of_pos]
        · simp
        · simp [ho]
        · simp [hf, ho]
      · rw [updateFirstOpt]
        simp only [ho, if_false]
        rw [List.find?_cons_of_neg, List.find?_cons_of_neg]
        · exact ih
        · simp [ho]
        · simp [ho]

lemma find?_append_of_none {p : UciOption → Bool} {opts : List UciOption}
    (o : UciOption) (h : opts.find? p = none) (hp : p o = true) :
    (opts ++ [o]).find? p = some o := by
  induction opts with
  | nil => simp [List.find?_cons_of_pos, hp]
  | cons a rest ih =>
      cases hpa : p a with
      | true =>
          rw [List.find?_cons_of_pos _ hpa] at h
          cases h
      | false =>
          rw [List.find?_cons_of_neg _ (by simp [hpa])] at h
          rw [List.cons_append, List.find?_cons_of_neg _ (by simp [hpa])]
          exact ih h

/-! ## Claim C9 (corrected): option-shape after a set -/

/-- A load function for stores whose configs are already cached: loading
from disk always fails. -/
def noFileLoad : Str → Res UciConfig := fun _ => .error (.err "no backing file".data)

def c9Sec : UciSection where
  name := "s".data
  sec_type := "t".data
  options := [{ name := "o".data
                values := ["1".data]
                opt_type := .TypeOption }]

def c9Cfg : UciConfig where
  name := "c".data
  pkg_name := []
  sections := [c9Sec]
  modified := false

def c9Tree : UciTree := { configs := [("c".data, c9Cfg)] }

/-- Counterexample to C9: a successful `set_option_values` leaves a
Scalar (`TypeOption`) option holding two values (overwriting an existing
scalar keeps its kind), and another successful call creates a Scalar
option holding zero values. -/
theorem C9_counterexample :
    (∃ t2 : UciTree,
        c9Tree.set_option_values noFileLoad "c".data "s".data "o".data
            ["a".data, "b".data] = .ok t2 ∧
        t2._lookup_option "c".data "s".data "o".data =
          .ok (some { name := "o".data, values := ["a".data, "b".data],
                      opt_type := .TypeOption })) ∧
    (∃ t3 : UciTree,
        c9Tree.set_option_values noFileLoad "c".data "s".data "p".data [] = .ok t3 ∧
        t3._lookup_option "c".data "s".data "p".data =
          .ok (some { name := "p".data, values := [], opt_type := .TypeOption })) := by
  exact ⟨⟨_, rfl, by decide⟩, ⟨_, rfl, by decide⟩⟩

/-- Structure of a successful `_set_option_with_type` call. -/
lemma set_option_with_type_ok {t : UciTree} {load : Str → Res UciConfig}
    {cn sn onm : Str} {opt_type : UciOptionType} {values : List Str} {t2 : UciTree}
    (h : t._set_option_with_type load cn sn onm opt_type values = .ok t2) :
    ∃ t1 cfg i sec,
      t.ensureLoaded load cn = .ok t1 ∧
      assocLookup t1.configs cn = some cfg ∧
      cfg.getMutIdx sn = .ok (some i) ∧
      cfg.sections.get? i = some sec ∧
      t2 = { configs := assocUpdate t1.configs cn (fun c => c.setSectionAt i
              (match sec.get onm with
               | some _ => sec.updateFirst onm (fun o => o.set_values values)
               | none => sec.add (UciOption.new onm opt_type values))) } := by
  unfold UciTree._set_option_with_type at h
  split at h
  · cases h
  next t1 hE =>
    split at h
    · cases h
    next cfg hL =>
      split at h
      · cases h
      · cases h
      next i hG =>
        split at h
        · cases h
        next sec hS =>
          refine ⟨t1, cfg, i, sec, hE, hL, hG, hS, ?_⟩
          simp only [Res.ok.injEq] at h
          exact h.symm

/-- C9 as amended: after a successful `set_option_values`, the targeted
option holds exactly the supplied values; a newly created option is a
List option iff more than one value was supplied, while an existing
option keeps its previous kind — so a Scalar option may afterwards hold
zero or several values. -/
theorem C9_amended (t : UciTree) (load : Str → Res UciConfig) (cn sn onm : Str)
    (values : List Str) (t2 : UciTree)
    (h : t.set_option_values load cn sn onm values = .ok t2) :
    ∃ t1 cfg i sec sec1,
      t.ensureLoaded load cn = .ok t1 ∧
      assocLookup t1.configs cn = some cfg ∧
      cfg.sections.get? i = some sec ∧
      t2.configs = assocUpdate t1.configs cn (fun c => c.setSectionAt i sec1) ∧
      ∃ opt2, sec1.get onm = some opt2 ∧ opt2.values = values ∧
        ((sec.get onm = none ∧
            opt2.opt_type =
              if values.length > 1 then UciOptionType.TypeList
              else UciOptionType.TypeOption) ∨
         (∃ ex, sec.get onm = some ex ∧ opt2.opt_type = ex.opt_type)) := by
  unfold UciTree.set_option_values at h
  by_cases hlen : values.length > 1
  · rw [if_pos hlen] at h
    obtain ⟨t1, cfg, i, sec, hE, hL, hG, hS, ht2⟩ := set_option_with_type_ok h
    refine ⟨t1, cfg, i, sec, _, hE, hL, hS, by rw [ht2], ?_⟩
    cases hget : sec.get onm with
    | some ex =>
        refine ⟨ex.set_values values, ?_, rfl, Or.inr ⟨ex, rfl, rfl⟩⟩
        show (sec.updateFirst onm (fun o => o.set_values values)).get onm = _
        unfold UciSection.updateFirst UciSection.get
        simp only
        rw [find?_updateFirstOpt onm (fun o => o.set_values values) sec.options
          (fun o => rfl)]
        rw [show sec.options.find? (fun o => o.name = onm) = some ex from hget]
        rfl
    | none =>
        refine ⟨UciOption.new onm .TypeList values, ?_, rfl,
          Or.inl ⟨rfl, by rw [if_pos hlen]; rfl⟩⟩
        show (sec.add (UciOption.new onm .TypeList values)).get onm = _
        unfold UciSection.add UciSection.get
        simp only
        exact find?_append_of_none _ hget (by simp [UciOption.new])
  · rw [if_neg hlen] at h
    obtain ⟨t1, cfg, i, sec, hE, hL, hG, hS, ht2⟩ := set_option_with_type_ok h
    refine ⟨t1, cfg, i, sec, _, hE, hL, hS, by rw [ht2], ?_⟩
    cases hget : sec.get onm with
    | some ex =>
        refine ⟨ex.set_values values, ?_, rfl, Or.inr ⟨ex, rfl, rfl⟩⟩
        show (sec.updateFirst onm (fun o => o.set_values values)).get onm = _
        unfold UciSection.updateFirst UciSection.get
        simp only
        rw [find?_updateFirstOpt onm (fun o => o.set_values values) sec.options
          (fun o => rfl)]
        rw [show sec.options.find? (fun o => o.name = onm) = some ex from hget]
        rfl
    | none =>
        refine ⟨UciOption.new onm .TypeOption values, ?_, rfl,
          Or.inl ⟨rfl, by rw [if_neg hlen]; rfl⟩⟩
        show (sec.add (UciOption.new onm .TypeOption values)).get onm = _
        unfold UciSection.add UciSection.get
        simp only
        exact find?_append_of_none _ hget (by simp [UciOption.new])

/-- The store after the first C9 counterexample call, used by the C9
witness. -/
def c9Tree2 : UciTree :=
  { configs := [("c".data,
      { c9Cfg with sections := [{ c9Sec with
          options := [{ name := "o".data
                        values := ["a".data, "b".data]
                        opt_type := .TypeOption }] }] })] }

/-- Witness for the amended C9 at a concrete call. -/
theorem C9_amended_witness :
    ∃ t1 cfg i sec sec1,
      c9Tree.ensureLoaded noFileLoad "c".data = .ok t1 ∧
      assocLookup t1.configs "c".data = some cfg ∧
      cfg.sections.get? i = some sec ∧
      c9Tree2.configs = assocUpdate t1.configs "c".data (fun c => c.setSectionAt i sec1) ∧
      ∃ opt2, sec1.get "o".data = some opt2 ∧ opt2.values = ["a".data, "b".data] ∧
        ((sec.get "o".data = none ∧
            opt2.opt_type =
              if (["a".data, "b".data] : List Str).length > 1 then UciOptionType.TypeList
              else UciOptionType.TypeOption) ∨
         (∃ ex, sec.get "o".data = some ex ∧ opt2.opt_type = ex.opt_type)) :=
  C9_amended c9Tree noFileLoad "c".data "s".data "o".data ["a".data, "b".data] c9Tree2
    (by decide)

/-! ## Claim C4 (corrected): the modified-flag discipline -/

def c4ModCfg : UciConfig where
  name := "c".data
  pkg_name := []
  sections := [c9Sec]
  modified := true

def c4ModTree : UciTree := { configs := [("c".data, c4ModCfg)] }

/-- Counterexample to C4: a successful `set_option_values` on an
unmodified cached config leaves `modified = false` (violating "every
mutating tree operation sets the flag"), and a successful `del_option`
naming an absent option on a modified config resets `modified` to
`false` (violating "cleared only by a successful commit"). -/
theorem C4_counterexample :
    (∃ t2 : UciTree,
        c9Tree.set_option_values noFileLoad "c".data "s".data "o".data ["en".data] =
          .ok t2 ∧
        (assocLookup t2.configs "c".data).map (·.modified) = some false) ∧
    (∃ t3 : UciTree,
        c4ModTree.del_option noFileLoad "c".data "s".data "zzz".data = .ok t3 ∧
        (assocLookup t3.configs "c".data).map (·.modified) = some false) := by
  exact ⟨⟨_, rfl, by decide⟩, ⟨_, rfl, by decide⟩⟩

/-- The section added or found by a successful `addSectionWith`. -/
lemma addSectionWith_ok {t1 : UciTree} {cn st sn : Str} {t2 : UciTree}
    (h : t1.addSectionWith cn st sn = .ok t2) :
    ∃ cfg, assocLookup t2.configs cn = some cfg ∧
      (cfg.modified = true ∨
       ∃ sec, cfg.get sn = .ok (some sec) ∧ sec.sec_type = st) := by
  unfold UciTree.addSectionWith at h
  split at h
  · cases h
  next cfg hL =>
    split at h
    · simp only [Res.ok.injEq] at h
      subst h
      dsimp only
      rw [assocLookup_update_self, hL]
      exact ⟨_, rfl, Or.inl rfl⟩
    · split at h
      next sec hget =>
        split at h
        · cases h
        next hty =>
          simp only [Res.ok.injEq] at h
          subst h
          exact ⟨cfg, hL, Or.inr ⟨sec, hget, not_ne_iff.mp hty⟩⟩
      next x hx =>
        simp only [Res.ok.injEq] at h
        subst h
        dsimp only
        rw [assocLookup_update_self, hL]
        exact ⟨_, rfl, Or.inl rfl⟩

lemma delFirst_snd (opts : List UciOption) (name : Str) :
    (delFirst opts name).2 = (opts.find? (fun o => o.name = name)).isSome := by
  induction opts with
  | nil => rfl
  | cons o rest ih =>
      by_cases ho : o.name = name
      · rw [delFirst, List.find?_cons_of_pos _ (by simp [ho])]
        simp [ho]
      · rw [delFirst, List.find?_cons_of_neg _ (by simp [ho])]
        simp only [ho, if_false]
        exact ih

/-- The removal flag of `UciSection::del` reports whether the named
option was present. -/
lemma del_snd_eq_get_isSome (s : UciSection) (name : Str) :
    (s.del name).2 = (s.get name).isSome := by
  unfold UciSection.del UciSection.get
  exact delFirst_snd s.options name

/-- C4 as amended: `del_section` always sets `modified`;
`add_section` either sets `modified` or found the named section already
present with the requested type; `set_option_values` never changes the
flag; `del_option` sets the flag to whether the named option existed and
was removed (when the section resolves; otherwise the store is
untouched); a fully successful `commit` clears the flags of all cached
configs, while a failed `commit` changes nothing. -/
theorem C4_amended :
    (∀ (t : UciTree) (load : Str → Res UciConfig) (cn stn : Str) (t2 : UciTree),
        t.del_section load cn stn = .ok t2 →
        (assocLookup t2.configs cn).map (·.modified) = some true) ∧
    (∀ (t : UciTree) (load : Str → Res UciConfig) (cn st sn : Str) (t2 : UciTree),
        t.add_section load cn st sn = .ok t2 →
        ∃ cfg, assocLookup t2.configs cn = some cfg ∧
          (cfg.modified = true ∨
           ∃ sec, cfg.get sn = .ok (some sec) ∧ sec.sec_type = st)) ∧
    (∀ (t : UciTree) (load : Str → Res UciConfig) (cn sn onm : Str)
        (values : List Str) (t2 : UciTree),
        t.set_option_values load cn sn onm values = .ok t2 →
        ∃ t1, t.ensureLoaded load cn = .ok t1 ∧
          (assocLookup t2.configs cn).map (·.modified) =
            (assocLookup t1.configs cn).map (·.modified)) ∧
    (∀ (t : UciTree) (load : Str → Res UciConfig) (cn sn onm : Str) (t2 : UciTree),
        t.del_option load cn sn onm = .ok t2 →
        ∃ t1 cfg, t.ensureLoaded load cn = .ok t1 ∧
          assocLookup t1.configs cn = some cfg ∧
          ((cfg.getMutIdx sn = .ok none ∧ t2 = t1) ∨
           (∃ i sec, cfg.getMutIdx sn = .ok (some i) ∧
             cfg.sections.get? i = some sec ∧
             t2.configs = assocUpdate t1.configs cn (fun c =>
               let c1 := c.setSectionAt i (sec.del onm).1
               { c1 with modified := (sec.del onm).2 }) ∧
             (sec.del onm).2 = (sec.get onm).isSome))) ∧
    (∀ (t : UciTree) (save : UciConfig → Res Unit),
        (∀ e t3, t.commit save = (.error e, t3) → t3 = t) ∧
        (∀ t3, t.commit save = (.ok (), t3) →
          ∀ n, (assocLookup t3.configs n).map (·.modified) =
            (assocLookup t.configs n).map (fun _ => false))) := by
  refine ⟨?_, ?_, ?_, ?_, ?_⟩
  · intro t load cn stn t2 h
    unfold UciTree.del_section at h
    split at h
    · cases h
    next t1 hE =>
      split at h
      · cases h
      next cfg hL =>
        simp only [Res.ok.injEq] at h
        subst h
        rw [assocLookup_update_self, hL]
        rfl
  · intro t load cn st sn t2 h
    unfold UciTree.add_section at h
    dsimp only at h
    split at h
    · exact addSectionWith_ok h
    · exact addSectionWith_ok h
  · intro t load cn sn onm values t2 h
    unfold UciTree.set_option_values at h
    have core : ∀ ot, t._set_option_with_type load cn sn onm ot values = .ok t2 →
        ∃ t1, t.ensureLoaded load cn = .ok t1 ∧
          (assocLookup t2.configs cn).map (·.modified) =
            (assocLookup t1.configs cn).map (·.modified) := by
      intro ot h
      obtain ⟨t1, cfg, i, sec, hE, hL, _, _, ht2⟩ := set_option_with_type_ok h
      refine ⟨t1, hE, ?_⟩
      subst ht2
      dsimp only
      rw [assocLookup_update_self]
      cases assocLookup t1.configs cn <;> rfl
    split at h
    · exact core _ h
    · exact core _ h
  · intro t load cn sn onm t2 h
    unfold UciTree.del_option at h
    split at h
    · cases h
    next t1 hE =>
      split at h
      · cases h
      next cfg hL =>
        split at h
        · cases h
        next hG0 =>
          simp only [Res.ok.injEq] at h
          exact ⟨t1, cfg, hE, hL, Or.inl ⟨hG0, h.symm⟩⟩
        next i hG =>
          split at h
          · cases h
          next sec hS =>
            simp only [Res.ok.injEq] at h
            subst h
            exact ⟨t1, cfg, hE, hL,
              Or.inr ⟨i, sec, hG, hS, rfl, del_snd_eq_get_isSome sec onm⟩⟩
  · intro t save
    constructor
    · intro e t3 h
      unfold UciTree.commit at h
      split at h
      · simp only [Prod.mk.injEq] at h
        exact h.2.symm
      · simp only [Prod.mk.injEq] at h
        cases h.1
    · intro t3 h n
      unfold UciTree.commit at h
      split at h
      · simp only [Prod.mk.injEq] at h
        cases h.1
      · simp only [Prod.mk.injEq] at h
        rw [← h.2]
        dsimp only
        rw [assocLookup_clear]
        cases assocLookup t.configs n <;> rfl

/-- The store after deleting section `s` of config `c` from `c9Tree`. -/
def c4DelTree : UciTree :=
  { configs := [("c".data, { c9Cfg with sections := [], modified := true })] }

/-- Witness for the amended C4 at concrete `del_section` and
`del_option` calls (the latter names an absent option, so the resolved
section reports no removal and the flag is reset accordingly). -/
theorem C4_amended_witness :
    ((assocLookup c4DelTree.configs "c".data).map (·.modified) = some true) ∧
    (∃ t1 cfg, c4ModTree.ensureLoaded noFileLoad "c".data = .ok t1 ∧
      assocLookup t1.configs "c".data = some cfg ∧
      ((cfg.getMutIdx "s".data = .ok none ∧ c9Tree = t1) ∨
       (∃ i sec, cfg.getMutIdx "s".data = .ok (some i) ∧
         cfg.sections.get? i = some sec ∧
         c9Tree.configs = assocUpdate t1.configs "c".data (fun c =>
           let c1 := c.setSectionAt i (sec.del "zzz".data).1
           { c1 with modified := (sec.del "zzz".data).2 }) ∧
         (sec.del "zzz".data).2 = (sec.get "zzz".data).isSome))) :=
  ⟨C4_amended.1 c9Tree noFileLoad "c".data "s".data c4DelTree (by decide),
   C4_amended.2.2.2.1 c4ModTree noFileLoad "c".data "s".data "zzz".data c9Tree (by decide)⟩

/-! ## Claim C3 (corrected): commit error handling -/

def c3CfgA : UciConfig where
  name := "a".data
  pkg_name := []
  sections := []
  modified := true

def c3CfgB : UciConfig where
  name := "b".data
  pkg_name := []
  sections := []
  modified := true

def c3Tree : UciTree := { configs := [("a".data, c3CfgA), ("b".data, c3CfgB)] }

/-- A save oracle that persists every config except `b`, whose I/O
fails. -/
def c3Save : UciConfig → Res Unit :=
  fun c => if c.name = "b".data then .error (.err "disk full".data) else .ok ()

/-- Counterexample to C3: with configs `a` and `b` both modified and the
save of `b` failing (in an iteration order that saves `a` first), commit
returns the error — and the modified flag of `a`, although `a` was
persisted by this very commit call, is NOT cleared. -/
theorem C3_counterexample :
    c3Tree.commit c3Save = (.error (.err "disk full".data), c3Tree) ∧
    c3Save c3CfgA = .ok () ∧
    (assocLookup c3Tree.configs "a".data).map (·.modified) = some true := by
  exact ⟨by decide, by decide, by decide⟩

/-- C3 as amended: commit saves every modified config in turn; the
`modified` flags (of all cached configs) are cleared only after every
save succeeded, and when any save fails the error is returned immediately
with the cache — including all flags — left unchanged. -/
theorem C3_amended (t : UciTree) (save : UciConfig → Res Unit) :
    (firstSaveErr save (t.configs.filter (fun p => p.2.modified)) = none →
      ∃ t2, t.commit save = (.ok (), t2) ∧
        ∀ n, (assocLookup t2.configs n).map (·.modified) =
          (assocLookup t.configs n).map (fun _ => false)) ∧
    (∀ e, firstSaveErr save (t.configs.filter (fun p => p.2.modified)) = some e →
      t.commit save = (.error e, t)) := by
  constructor
  · intro hnone
    refine ⟨{ configs := t.configs.map (fun p => (p.1, { p.2 with modified := false })) },
      ?_, ?_⟩
    · unfold UciTree.commit
      rw [hnone]
    · intro n
      dsimp only
      rw [assocLookup_clear]
      cases assocLookup t.configs n <;> rfl
  · intro e he
    unfold UciTree.commit
    rw [he]

def c3SaveOk : UciConfig → Res Unit := fun _ => .ok ()

/-- Witness for the amended C3: committing `c3Tree` with an all-ok save
oracle succeeds and clears every flag. -/
theorem C3_amended_witness :
    ∃ t2, c3Tree.commit c3SaveOk = (.ok (), t2) ∧
      ∀ n, (assocLookup t2.configs n).map (·.modified) =
        (assocLookup c3Tree.configs n).map (fun _ => false) :=
  (C3_amended c3Tree c3SaveOk).1 (by decide)

/-! ## Claim C5 (corrected): auto-loading on cache miss -/

def c5Cfg : UciConfig where
  name := "net".data
  pkg_name := []
  sections := [{ name := "s".data
                 sec_type := "t".data
                 options := [{ name := "o".data
                               values := ["v".data]
                               opt_type := .TypeOption }] }]
  modified := false

/-- Disk with exactly one parseable config, `net`. -/
def c5Load : Str → Res UciConfig :=
  fun n => if n = "net".data then .ok c5Cfg else .error (.err "no file".data)

def c5Empty : UciTree := { configs := [] }

/-- Counterexample to C5: with `net` present on disk but not cached,
`get_option_value` does not load it — it returns a "not found" error —
although an explicit `load_config` followed by the same call succeeds. -/
theorem C5_counterexample :
    c5Empty.get_option_value "net".data "s".data "o".data =
      .error (.err "values of s.o not found".data) ∧
    (∃ t1, c5Empty.load_config c5Load "net".data = .ok t1 ∧
      t1.get_option_value "net".data "s".data "o".data = .ok ["v".data]) := by
  exact ⟨by decide, ⟨_, rfl, by decide⟩⟩

lemma assocContains_insert_self (m : ConfigMap) (k : Str) (v : UciConfig) :
    assocContains (assocInsert m k v) k = true := by
  unfold assocContains
  have h := assocLookup_insert_self m k v
  unfold assocLookup at h
  rcases ho : (assocInsert m k v).find? (fun p => p.1 = k) with _ | p
  · rw [ho] at h
    cases h
  · simp [ho]

lemma ensureLoaded_hit {t : UciTree} {load : Str → Res UciConfig} {cn : Str}
    (h : assocContains t.configs cn = true) :
    t.ensureLoaded load cn = .ok t := by
  unfold UciTree.ensureLoaded
  rw [if_pos h]

lemma ensureLoaded_miss {t : UciTree} {load : Str → Res UciConfig} {cn : Str}
    {cfg : UciConfig} (hmiss : ¬ assocContains t.configs cn = true)
    (hload : load cn = .ok cfg) :
    t.ensureLoaded load cn = .ok { configs := assocInsert t.configs cn cfg } := by
  unfold UciTree.ensureLoaded UciTree.load_config UciTree._load_config
  rw [if_neg hmiss, if_neg (by simpa using hmiss), hload]

/-- C5 as amended: `get_sections`, `set_option_values`, `add_section`,
`del_section` and `del_option` auto-load the target config on a cache
miss with plain `load` semantics — each behaves exactly as it would on a
store already holding the parse result — while `get_option_value` (and
with it the last/bool variants) performs no loading: on a cache miss it
returns a "values not found" error even when the file exists on disk. -/
theorem C5_amended :
    (∀ (t : UciTree) (cn sn onm : Str), assocLookup t.configs cn = none →
      t.get_option_value cn sn onm =
        .error (.err ("values of ".data ++ sn ++ ".".data ++ onm ++ " not found".data))) ∧
    (∀ (t : UciTree) (load : Str → Res UciConfig) (cn : Str) (cfg : UciConfig),
      ¬ assocContains t.configs cn = true → load cn = .ok cfg →
      (∀ st : Str, t.get_sections load cn st =
        (UciTree.mk (assocInsert t.configs cn cfg)).get_sections load cn st) ∧
      (∀ sn onm : Str, ∀ values : List Str,
        t.set_option_values load cn sn onm values =
          (UciTree.mk (assocInsert t.configs cn cfg)).set_option_values load cn sn onm
            values) ∧
      (∀ st sn : Str, t.add_section load cn st sn =
        (UciTree.mk (assocInsert t.configs cn cfg)).add_section load cn st sn) ∧
      (∀ stn : Str, t.del_section load cn stn =
        (UciTree.mk (assocInsert t.configs cn cfg)).del_section load cn stn) ∧
      (∀ sn onm : Str, t.del_option load cn sn onm =
        (UciTree.mk (assocInsert t.configs cn cfg)).del_option load cn sn onm)) := by
  constructor
  · intro t cn sn onm h
    unfold UciTree.get_option_value UciTree._lookup_values UciTree._lookup_option
    rw [h]
  · intro t load cn cfg hmiss hload
    have hhit := @ensureLoaded_hit (UciTree.mk (assocInsert t.configs cn cfg)) load cn
      (assocContains_insert_self t.configs cn cfg)
    refine ⟨?_, ?_, ?_, ?_, ?_⟩
    · intro st
      unfold UciTree.get_sections
      rw [ensureLoaded_miss hmiss hload, hhit]
    · intro sn onm values
      unfold UciTree.set_option_values UciTree._set_option_with_type
      rw [ensureLoaded_miss hmiss hload, hhit]
    · intro st sn
      unfold UciTree.add_section
      rw [ensureLoaded_miss hmiss hload, hhit]
    · intro stn
      unfold UciTree.del_section
      rw [ensureLoaded_miss hmiss hload, hhit]
    · intro sn onm
      unfold UciTree.del_option
      rw [ensureLoaded_miss hmiss hload, hhit]

/-- Witness for the amended C5 at a concrete store: `get_option_value`
misses, and `get_sections` on a miss equals `get_sections` on the
pre-loaded store. -/
theorem C5_amended_witness :
    c5Empty.get_option_value "net".data "x".data "y".data =
      .error (.err ("values of ".data ++ "x".data ++ ".".data ++ "y".data ++
        " not found".data)) ∧
    c5Empty.get_sections c5Load "net".data "t".data =
      (UciTree.mk (assocInsert c5Empty.configs "net".data c5Cfg)).get_sections c5Load
        "net".data "t".data :=
  ⟨C5_amended.1 c5Empty "net".data "x".data "y".data (by decide),
   (C5_amended.2 c5Empty c5Load "net".data c5Cfg (by decide) (by decide)).1 "t".data⟩

/-! ## Claim C1 (code bug): serialize/parse round trip -/

/-- Accepted input whose option value contains a single quote. -/
def c1Input : Str := "config foo\noption x a\x27b\n".data

/-- The parse of `c1Input`. -/
def c1Cfg : UciConfig where
  name := "c".data
  pkg_name := []
  sections := [{ name := []
                 sec_type := "foo".data
                 options := [{ name := "x".data
                               values := ["a\x27b".data]
                               opt_type := .TypeOption }] }]
  modified := false

/-- `write_in` of that parse: the quote in the value is not escaped. -/
def c1Serialized : Str := "\nconfig foo\n\toption x \x27a\x27b\x27\n\n".data

/-- C1 fails on the code: `uci_parse` accepts `c1Input`, `write_in`
serializes the result without escaping the embedded quote, and
re-parsing the serialized text yields a parse error instead of an equal
config. -/
theorem C1_roundtrip_failure :
    uci_parse 200 "c".data c1Input = some (.ok c1Cfg) ∧
    c1Cfg.write_in = some c1Serialized ∧
    uci_parse 200 "c".data c1Serialized =
      some (.error (.err
        "parse error: config: c, expected keyword (package, config, option, list) or eof".data)) := by
  exact ⟨by decide, by decide, by decide⟩

/-! ## Claim C7 (code bug): error-token propagation -/

/-- Input whose token stream holds an Error token, but which makes
`uci_parse` panic first: flushing the second section named `@bar`
triggers `get_mut("@bar").unwrap()` on the selector-parse error. -/
def c7Input : Str :=
  "config foo \x27@bar\x27\nconfig foo \x27@bar\x27\nconfig x y\n<?xml\n".data

/-- C7 fails on the code: the scanner's token stream for `c7Input`
contains an Error token, yet `uci_parse` does not return a parse error
wrapping its message — it panics while processing an earlier Section
token. -/
theorem C7_error_token_panic :
    (scanRun 300 (Scanner.new "c".data c7Input)).map
        (fun toks => toks.any (fun tk => tk.typ = ScanTokenType.Error)) = some true ∧
    uci_parse 300 "c".data c7Input = some (.error .panic) := by
  exact ⟨by decide, by decide⟩

/-! ## Claim C8 (code bug): lexer termination -/

/-- At end of input the loop of `lex_package_name` never exits: every
iteration sees `next_rune` return `None`, falls into the catch-all arm,
and loops with the position unchanged. -/
lemma packageNameLoop_eof (fuel : Nat) :
    ∀ l : Lexer, l.input.length ≤ l.pos → Lexer.packageNameLoop fuel l = none := by
  induction fuel with
  | zero => intro l _; rfl
  | succ f ih =>
      intro l h
      have hg : l.input.get? l.pos = none := List.get?_eq_none.mpr h
      have hstep : Lexer.packageNameLoop (f + 1) l =
          Lexer.packageNameLoop f { l with width := 0 } := by
        conv_lhs => rw [Lexer.packageNameLoop]
        simp only [Lexer.nextRune, hg]
      rw [hstep]
      exact ih _ h

def c8Start : Lexer := Lexer.new "x".data "package".data

/-- The lexer state after the `Package` keyword item was produced for the
input "package": position at end of input, in state `PackageName`. -/
def c8Stuck : Lexer where
  name := "x".data
  input := "package".data
  start := 7
  pos := 7
  width := 1
  state := some .PackageName
  items := some []

/-- C8 fails on the code: on input "package" the lexer yields the
`Package` keyword item and then `next_item` never returns — no fuel
suffices — so the item sequence is not terminated by an `Eof` or `Error`
item. -/
theorem C8_lexer_divergence :
    c8Start.nextItem 5 =
      some ({ typ := .Package, val := "package".data, pos := 7 }, c8Stuck) ∧
    ∀ fuel, c8Stuck.nextItem fuel = none := by
  constructor
  · decide
  · intro fuel
    cases fuel with
    | zero => rfl
    | succ f =>
        have ha : c8Stuck.action f = none :=
          packageNameLoop_eof f c8Stuck (by decide)
        have hstep : Lexer.nextItem (f + 1) c8Stuck =
            (match c8Stuck.action f with
             | none => none
             | some l1 => Lexer.nextItem f l1) := rfl
        rw [hstep, ha]

/-! ## Claim C2: positional addressing -/

/-- The selector text `@<type>[<index>]`. -/
def mkSelector (t : Str) (i : Int) : Str :=
  '@' :: t ++ '[' :: intRepr i ++ [']']

lemma toNat_ofNat_digit (d : Nat) (h : d < 10) : (Char.ofNat (48 + d)).toNat = 48 + d := by
  interval_cases d <;> decide

lemma digitChar_isDigit (d : Nat) (h : d < 10) :
    '0' ≤ Char.ofNat (48 + d) ∧ Char.ofNat (48 + d) ≤ '9' := by
  interval_cases d <;> exact ⟨by decide, by decide⟩

lemma decRepr_digits (n : Nat) : ∀ c ∈ decRepr n, '0' ≤ c ∧ c ≤ '9' := by
  induction n using Nat.strong_induction_on with
  | _ n ih =>
      intro c hc
      rw [decRepr] at hc
      split at hc
      next h =>
        simp only [List.mem_singleton] at hc
        subst hc
        exact digitChar_isDigit n h
      next h =>
        rw [List.mem_append] at hc
        rcases hc with hc | hc
        · exact ih (n / 10) (Nat.div_lt_self (by omega) (by norm_num)) c hc
        · simp only [List.mem_singleton] at hc
          subst hc
          exact digitChar_isDigit _ (Nat.mod_lt _ (by norm_num))

lemma decRepr_ne_nil (n : Nat) : decRepr n ≠ [] := by
  rw [decRepr]
  split <;> simp

lemma digitsValGo_append (ds cs : Str) (acc : Nat) :
    digitsValGo (ds ++ cs) acc =
      match digitsValGo ds acc with
      | none => none
      | some v => digitsValGo cs v := by
  induction ds generalizing acc with
  | nil => rfl
  | cons c rest ih =>
      rw [List.cons_append, digitsValGo, digitsValGo]
      split_ifs with h
      · exact ih _
      · rfl

lemma digitsValGo_decRepr (m n : Nat) :
    digitsValGo (decRepr n) m = some (m * 10 ^ (decRepr n).length + n) := by
  induction n using Nat.strong_induction_on generalizing m with
  | _ n ih =>
      rw [decRepr]
      split
      next h =>
        simp only [digitsValGo, if_pos (digitChar_isDigit n h)]
        simp [toNat_ofNat_digit n h]
      next h =>
        rw [digitsValGo_append]
        rw [ih (n / 10) (Nat.div_lt_self (by omega) (by norm_num)) m]
        have h10 : n % 10 < 10 := Nat.mod_lt _ (by norm_num)
        simp only [digitsValGo, if_pos (digitChar_isDigit _ h10)]
        simp only [toNat_ofNat_digit _ h10, List.length_append, List.length_singleton,
          Option.some.injEq]
        have hval : 48 + n % 10 - 48 = n % 10 := by omega
        rw [hval, pow_succ]
        have hdiv : n / 10 * 10 + n % 10 = n := by omega
        ring_nf
        omega

lemma digitsVal_decRepr (n : Nat) : digitsVal (decRepr n) = some n := by
  rw [digitsVal, digitsValGo_decRepr]
  simp

lemma decRepr_head_digit (n : Nat) :
    ∀ c, (decRepr n).head? = some c → '0' ≤ c ∧ c ≤ '9' := by
  intro c hc
  apply decRepr_digits n
  cases hd : decRepr n with
  | nil => rw [hd] at hc; cases hc
  | cons a rest => rw [hd] at hc; simp at hc; simp [hd, hc]

/-- `parse::<i32>` inverts the decimal rendering on the `i32` range. -/
lemma parseI32_intRepr (i : Int) (hlo : -(2 ^ 31) ≤ i) (hhi : i ≤ 2 ^ 31 - 1) :
    parseI32 (intRepr i) = .ok i := by
  by_cases hneg : i < 0
  · rw [intRepr, if_pos hneg, parseI32]
    rw [if_neg (by decide), if_pos rfl]
    rw [parseDigitsI32, if_neg (decRepr_ne_nil _), digitsVal_decRepr]
    have hb : i.natAbs ≤ 2 ^ 31 := by omega
    simp only [hb, if_true]
    simp only [Res.ok.injEq]
    omega
  · rw [intRepr, if_neg hneg]
    obtain ⟨c, rest, hd⟩ := List.exists_cons_of_ne_nil (decRepr_ne_nil i.toNat)
    have hdig : '0' ≤ c ∧ c ≤ '9' := decRepr_head_digit i.toNat c (by simp [hd])
    rw [hd, parseI32]
    have hc1 : ¬ c = '+' := by
      intro h
      subst h
      exact absurd hdig.1 (by decide)
    have hc2 : ¬ c = '-' := by
      intro h
      subst h
      exact absurd hdig.1 (by decide)
    rw [if_neg hc1, if_neg hc2, ← hd]
    rw [parseDigitsI32, if_neg (decRepr_ne_nil _), digitsVal_decRepr]
    have hb : i.toNat ≤ 2 ^ 31 - 1 := by omega
    simp only [Bool.false_eq_true, if_false, hb, if_true]
    simp only [Res.ok.injEq]
    omega

/-- Characters with no special meaning to the selector scanner. -/
def selSafe (c : Char) : Prop := c ≠ '@' ∧ c ≠ '[' ∧ c ≠ ']'

instance (c : Char) : Decidable (selSafe c) := by
  unfold selSafe
  infer_instance

lemma digit_selSafe (c : Char) (h : '0' ≤ c ∧ c ≤ '9') : selSafe c := by
  refine ⟨?_, ?_, ?_⟩ <;> rintro rfl <;> revert h <;> decide

lemma intRepr_ne_nil (i : Int) : intRepr i ≠ [] := by
  rw [intRepr]
  split
  · simp
  · exact decRepr_ne_nil _

lemma intRepr_selSafe (i : Int) : ∀ c ∈ intRepr i, selSafe c := by
  intro c hc
  rw [intRepr] at hc
  split at hc
  · rw [List.mem_cons] at hc
    rcases hc with rfl | hc
    · exact ⟨by decide, by decide, by decide⟩
    · exact digit_selSafe c (decRepr_digits _ c hc)
  · exact digit_selSafe c (decRepr_digits _ c hc)

/-- One unrolled iteration of the selector validation loop. -/
lemma unmangleScan_cons (ket : Nat) (c : Char) (rest : List Char) (i bra : Nat) :
    unmangleScan ket (c :: rest) i bra =
      if i ≠ 0 ∧ c = '@' then
        .error (.err "invalid syntax: multiple @ signs found".data)
      else if bra > 0 ∧ c = '[' then
        .error (.err "invalid syntax: multiple open brackets found".data)
      else if i ≠ ket ∧ c = ']' then
        .error (.err "invalid syntax: multiple closed brackets found".data)
      else unmangleScan ket rest (i + 1) (if c = '[' then i else bra) := rfl

lemma unmangleScan_nil (ket i bra : Nat) : unmangleScan ket [] i bra = .ok bra := rfl

/-- The scan walks over a safe segment without an error and without
touching `bra`. -/
lemma unmangleScan_safe (ket : Nat) (cs rest : Str) (i bra : Nat)
    (hsafe : ∀ c ∈ cs, selSafe c) :
    unmangleScan ket (cs ++ rest) i bra = unmangleScan ket rest (i + cs.length) bra := by
  induction cs generalizing i with
  | nil => simp
  | cons c cs ih =>
      obtain ⟨h1, h2, h3⟩ := hsafe c (by simp)
      rw [List.cons_append, unmangleScan]
      rw [if_neg (by simp [h1]), if_neg (by simp [h2]), if_neg (by simp [h3]),
        if_neg h2]
      rw [ih (i + 1) (fun c hc => hsafe c (by simp [hc]))]
      congr 1
      simp
      omega

/-- Decoding a well-formed selector built from a type with no special
characters and an in-range index recovers both. -/
lemma unmangle_mkSelector (t : Str) (i : Int) (ht : t ≠ [])
    (hsafe : ∀ c ∈ t, selSafe c) (hlo : -(2 ^ 31) ≤ i) (hhi : i ≤ 2 ^ 31 - 1) :
    unmangle_section_name (mkSelector t i) = .ok (t, i) := by
  have hdne := intRepr_ne_nil i
  have hlen : (mkSelector t i).length = t.length + (intRepr i).length + 3 := by
    rw [mkSelector]
    simp
    omega
  have htpos : 1 ≤ t.length := by
    cases t with
    | nil => exact absurd rfl ht
    | cons a l => simp
  have hdpos : 1 ≤ (intRepr i).length := by
    cases hd : intRepr i with
    | nil => exact absurd hd hdne
    | cons a l => simp
  rw [unmangle_section_name]
  rw [if_neg (by omega : ¬ (mkSelector t i).length < 5)]
  rw [if_neg (by rw [mkSelector]; simp)]
  have hket : (mkSelector t i).length - 1 = t.length + 1 + (intRepr i).length + 1 := by
    omega
  have hsel2 : mkSelector t i = '@' :: (t ++ ('[' :: (intRepr i ++ [']']))) := by
    rw [mkSelector]
    simp
  have hscan : unmangleScan ((mkSelector t i).length - 1) (mkSelector t i) 0 0 =
      .ok (t.length + 1) := by
    conv_lhs => rw [hsel2]
    rw [unmangleScan_cons]
    rw [if_neg (by simp), if_neg (by simp), if_neg (by simp [hket] <;> omega),
      if_neg (by decide)]
    rw [unmangleScan_safe _ t _ 1 0 hsafe]
    rw [unmangleScan_cons]
    rw [if_neg (by simp), if_neg (by simp), if_neg (by simp), if_pos rfl]
    rw [unmangleScan_safe _ (intRepr i) _ _ _ (intRepr_selSafe i)]
    rw [show ([']'] : Str) = ']' :: [] from rfl, unmangleScan_cons]
    rw [if_neg (by simp), if_neg (by simp),
      if_neg (by rw [not_and]; intro hne; exact absurd (by simp [hket]; omega) hne),
      if_neg (by decide), unmangleScan_nil]
    congr 1
    omega
  rw [hscan]
  dsimp only
  rw [if_neg (by omega)]
  have hsel : mkSelector t i = ('@' :: t ++ ['[']) ++ (intRepr i ++ [']']) := by
    rw [mkSelector]
    simp
  have hdrop1 : (mkSelector t i).drop 1 = t ++ '[' :: intRepr i ++ [']'] := by
    rw [mkSelector]
    rfl
  have htype : ((mkSelector t i).drop 1).take (t.length + 1 - 1) = t := by
    rw [hdrop1]
    simp [List.take_left]
  have hdigits : ((mkSelector t i).drop (t.length + 1 + 1)).take
      ((mkSelector t i).length - 1 - (t.length + 1 + 1)) = intRepr i := by
    have hd2 : (mkSelector t i).drop (t.length + 1 + 1) = intRepr i ++ [']'] := by
      rw [hsel]
      have : t.length + 1 + 1 = ('@' :: t ++ ['[']).length := by simp
      rw [this, List.drop_left]
    rw [hd2]
    have : (mkSelector t i).length - 1 - (t.length + 1 + 1) = (intRepr i).length := by
      omega
    rw [this]
    simp [List.take_left]
  rw [htype, hdigits, parseI32_intRepr i hlo hhi]

/-- `usize as i32` is the identity below `2^31`. -/
lemma i32ofNat_small (n : Nat) (h : n < 2 ^ 31) : i32ofNat n = n := by
  rw [i32ofNat]
  have h32 : (n : Int) % 2 ^ 32 = n := by
    rw [Int.emod_eq_of_lt (by omega) (by push_cast; omega)]
  simp only [h32]
  rw [if_pos (by push_cast; omega)]

/-- C2: in a config with `N` sections of type `t` (`N` below `i32`
range, the type a non-empty string without selector metacharacters),
`get` with selector `@t[i]` for `0 ≤ i ≤ N-1` returns the i-th section
of that type in document order; `@t[-1]` through `@t[-N]` return the
same sections in reverse order (index resolved as `count + index`); and
`@t[N]` and `@t[-N-1]` return an "index out of bounds" error. -/
theorem C2_positional_addressing (cfg : UciConfig) (t : Str) (ht : t ≠ [])
    (hsafe : ∀ c ∈ t, selSafe c) (hN : cfg._count t < 2 ^ 31) :
    (∀ i : Nat, i < cfg._count t →
      cfg.get (mkSelector t i) =
        .ok ((cfg.sections.filter (fun s => s.sec_type = t)).get? i) ∧
      ((cfg.sections.filter (fun s => s.sec_type = t)).get? i).isSome) ∧
    (∀ k : Nat, 1 ≤ k → k ≤ cfg._count t →
      cfg.get (mkSelector t (-(k : Int))) =
        .ok ((cfg.sections.filter (fun s => s.sec_type = t)).get? (cfg._count t - k))) ∧
    cfg.get (mkSelector t (cfg._count t)) =
      .error (.err "invalid name: index out of bounds".data) ∧
    cfg.get (mkSelector t (-((cfg._count t : Int) + 1))) =
      .error (.err "invalid name: index out of bounds".data) := by
  have hdisp : ∀ j : Int, cfg.get (mkSelector t j) = cfg._get_unnamed (mkSelector t j) := by
    intro j
    rw [mkSelector]
    rfl
  have hcore : ∀ j : Int, -(2 ^ 31) ≤ j → j ≤ 2 ^ 31 - 1 →
      cfg._get_unnamed (mkSelector t j) =
        if (if j ≥ 0 then j else i32ofNat (cfg._count t) + j) < 0 ∨
            (if j ≥ 0 then j else i32ofNat (cfg._count t) + j) ≥ i32ofNat (cfg._count t) then
          .error (.err "invalid name: index out of bounds".data)
        else
          .ok ((cfg.sections.filter (fun s => s.sec_type = t)).get?
            (if j ≥ 0 then j else i32ofNat (cfg._count t) + j).toNat) := by
    intro j hlo hhi
    rw [UciConfig._get_unnamed, unmangle_mkSelector t j ht hsafe hlo hhi]
  refine ⟨?_, ?_, ?_, ?_⟩
  · intro i hi
    constructor
    · rw [hdisp, hcore i (by omega) (by push_cast; omega)]
      simp only [i32ofNat_small _ hN]
      rw [if_pos (by omega : (i : Int) ≥ 0), if_neg (by push_cast; omega)]
      simp
    · rw [Option.isSome_iff_exists]
      have hlt : i < (cfg.sections.filter (fun s => s.sec_type = t)).length := hi
      exact ⟨_, List.get?_eq_get hlt⟩
  · intro k h1 hk
    rw [hdisp, hcore (-(k : Int)) (by omega) (by omega)]
    simp only [i32ofNat_small _ hN]
    rw [if_neg (by omega : ¬ (-(k : Int)) ≥ 0), if_neg (by push_cast; omega)]
    have harg : ((cfg._count t : Int) + -(k : Int)).toNat = cfg._count t - k := by omega
    rw [harg]
  · rw [hdisp, hcore (cfg._count t) (by omega) (by push_cast; omega)]
    simp only [i32ofNat_small _ hN]
    rw [if_pos (by omega : ((cfg._count t : Int)) ≥ 0), if_pos (by omega)]
  · rw [hdisp, hcore (-((cfg._count t : Int) + 1)) (by push_cast; omega) (by omega)]
    simp only [i32ofNat_small _ hN]
    rw [if_neg (by omega : ¬ (-((cfg._count t : Int) + 1)) ≥ 0), if_pos (by omega)]

def c2S0 : UciSection where
  name := "x".data
  sec_type := "foo".data
  options := []

def c2S1 : UciSection where
  name := []
  sec_type := "foo".data
  options := []

def c2Bar : UciSection where
  name := []
  sec_type := "bar".data
  options := []

/-- Config with two `foo` sections (at positions 0 and 2) and one `bar`
section, for the C2 witness. -/
def c2Cfg : UciConfig where
  name := "c".data
  pkg_name := []
  sections := [c2S0, c2Bar, c2S1]
  modified := false

/-- Witness for C2: on `c2Cfg`, `@foo[0]` is the first foo section,
`@foo[-1]` the last, and `@foo[2]` / `@foo[-3]` are out of bounds. -/
theorem C2_positional_addressing_witness :
    c2Cfg.get (mkSelector "foo".data ((0 : Nat) : Int)) = .ok (some c2S0) ∧
    c2Cfg.get (mkSelector "foo".data (-((1 : Nat) : Int))) = .ok (some c2S1) ∧
    c2Cfg.get (mkSelector "foo".data ((c2Cfg._count "foo".data : Nat) : Int)) =
      .error (.err "invalid name: index out of bounds".data) ∧
    c2Cfg.get (mkSelector "foo".data (-((c2Cfg._count "foo".data : Int) + 1))) =
      .error (.err "invalid name: index out of bounds".data) := by
  obtain ⟨hpos, hneg, herr1, herr2⟩ :=
    C2_positional_addressing c2Cfg "foo".data (by decide) (by decide) (by decide)
  refine ⟨?_, ?_, herr1, herr2⟩
  · have h0 := (hpos 0 (by decide)).1
    rw [h0]
    decide
  · have h1 := hneg 1 (by decide) (by decide)
    rw [h1]
    decide

end UciRs
